import Mathlib

/-!
tiny_http1.1: route registry, request decoder and connection handler.

A shallow embedding of `pkg/tinyServer` (`server.go`, `response.go`, `header.go`,
`request.go`).

Conventions of the embedding.

* A Go `string` / `[]byte` is a list of bytes, `Bytes = List Nat`; every element
  stands for one byte (a value below 256).  Source literals are written
  `bytes "..."`, their UTF-8 encoding.
* A Go `map[K]V` is an association list with distinct keys (`mapGet`, `mapSet`); a
  `map[Method]struct{}` is the list of its keys.  Where the source ranges over a
  method set the model visits the keys in list order; the order of the range over
  the response headers is a field of `Stdlib`.
* A `panic` is the `Except.error` of its message; `error` results of the decoder are
  the constructors of `DecodeError`, one per `return nil, ...` of `readRequest`.
* Functions of the Go standard library whose tables are not part of the repository
  (`url.Parse`, the visiting order of `range` over the response headers) are fields
  of `Stdlib`; the small ones (`strings.Split`, `strings.TrimSpace`,
  `strings.Index`, `fmt.Sscanf "%d"`, `textproto.CanonicalMIMEHeaderKey`, ...) are
  modelled byte for byte.
-/

namespace TinyServer

deriving instance DecidableEq for Except

/-! ## Byte strings -/

/-- A Go string: a sequence of bytes. -/
abbrev Bytes := List Nat

/-- UTF-8 encoding of one code point. -/
def utf8Char (c : Char) : Bytes :=
  let n := c.toNat
  if n < 0x80 then [n]
  else if n < 0x800 then [0xC0 + n / 0x40, 0x80 + n % 0x40]
  else if n < 0x10000 then [0xE0 + n / 0x1000, 0x80 + (n / 0x40) % 0x40, 0x80 + n % 0x40]
  else [0xF0 + n / 0x40000, 0x80 + (n / 0x1000) % 0x40, 0x80 + (n / 0x40) % 0x40,
        0x80 + n % 0x40]

/-- The bytes of a source literal. -/
def bytes (s : String) : Bytes :=
  s.toList.flatMap utf8Char

/-- Go `strings.Split(s, sep)` for a one-byte separator: the pieces between the
separators, always at least one piece. -/
def splitOn (sep : Nat) : Bytes → List Bytes
  | [] => [[]]
  | c :: cs =>
    if c = sep then [] :: splitOn sep cs
    else
      match splitOn sep cs with
      | [] => [[c]]
      | p :: ps => (c :: p) :: ps

/-- Width in bytes of the white-space code point (Go `unicode.IsSpace`) encoded at the
head of `s`; `0` when `s` does not start with one.  The code points are U+0009..U+000D,
U+0020, U+0085, U+00A0, U+1680, U+2000..U+200A, U+2028, U+2029, U+202F, U+205F, U+3000. -/
def spaceWidth : Bytes → Nat
  | [] => 0
  | b0 :: rest =>
    if b0 = 0x20 ∨ (0x09 ≤ b0 ∧ b0 ≤ 0x0D) then 1
    else
      match rest with
      | [] => 0
      | b1 :: rest1 =>
        if b0 = 0xC2 ∧ (b1 = 0x85 ∨ b1 = 0xA0) then 2
        else
          match rest1 with
          | [] => 0
          | b2 :: _ =>
            if b0 = 0xE1 ∧ b1 = 0x9A ∧ b2 = 0x80 then 3
            else if b0 = 0xE2 ∧ b1 = 0x80 ∧
                ((0x80 ≤ b2 ∧ b2 ≤ 0x8A) ∨ b2 = 0xA8 ∨ b2 = 0xA9 ∨ b2 = 0xAF) then 3
            else if b0 = 0xE2 ∧ b1 = 0x81 ∧ b2 = 0x9F then 3
            else if b0 = 0xE3 ∧ b1 = 0x80 ∧ b2 = 0x80 then 3
            else 0

/-- Width in bytes of the white-space code point that ends `s` (what Go
`utf8.DecodeLastRuneInString` followed by `unicode.IsSpace` finds); `0` when there is
none. -/
def lastSpaceWidth (s : Bytes) : Nat :=
  if 1 ≤ s.length ∧ spaceWidth (s.drop (s.length - 1)) = 1 then 1
  else if 2 ≤ s.length ∧ spaceWidth (s.drop (s.length - 2)) = 2 then 2
  else if 3 ≤ s.length ∧ spaceWidth (s.drop (s.length - 3)) = 3 then 3
  else 0

/-- Removes leading white space, at most `fuel` code points of it. -/
def trimLeftN : Nat → Bytes → Bytes
  | 0, s => s
  | fuel + 1, s => if spaceWidth s = 0 then s else trimLeftN fuel (s.drop (spaceWidth s))

/-- Removes trailing white space, at most `fuel` code points of it. -/
def trimRightN : Nat → Bytes → Bytes
  | 0, s => s
  | fuel + 1, s =>
    if lastSpaceWidth s = 0 then s else trimRightN fuel (s.take (s.length - lastSpaceWidth s))

/-- Go `strings.TrimSpace`: all leading and trailing white space removed (every step
removes at least one byte, so `s.length` steps are enough). -/
def TrimSpace (s : Bytes) : Bytes :=
  let left := trimLeftN s.length s
  trimRightN left.length left

/-- Go `strings.Index(s, sep)` for a one-byte separator; `none` stands for `-1`. -/
def Index (s : Bytes) (sep : Nat) : Option Nat :=
  match s with
  | [] => none
  | c :: cs => if c = sep then some 0 else (Index cs sep).map (· + 1)

/-- Go `bufio.Reader.ReadString(delim)`: the bytes up to and including the first
`delim` and the unread rest; `none` when the stream ends before a `delim` (the call
returns `io.EOF`). -/
def ReadString (delim : Nat) : Bytes → Option (Bytes × Bytes)
  | [] => none
  | c :: cs =>
    if c = delim then some ([c], cs)
    else
      match ReadString delim cs with
      | none => none
      | some (line, rest) => some (c :: line, rest)

/-- Go `strings.ToLower`, on the code points whose lower case is an ASCII letter:
`A`..`Z`, U+212A KELVIN SIGN (`k`) and U+0130 (`i`).  Other bytes are kept: Go maps
them to bytes outside ASCII too, so comparing the result with an ASCII word is not
affected. -/
def ToLower : Bytes → Bytes
  | [] => []
  | 0xE2 :: 0x84 :: 0xAA :: cs => 0x6B :: ToLower cs
  | 0xC4 :: 0xB0 :: cs => 0x69 :: ToLower cs
  | c :: cs => (if 0x41 ≤ c ∧ c ≤ 0x5A then c + 0x20 else c) :: ToLower cs

/-- The `SkipSpace` of `fmt.Sscanf`: white space is skipped, a newline is an error
(`none`). -/
def skipSpaceN : Nat → Bytes → Option Bytes
  | 0, s => some s
  | fuel + 1, s =>
    if s.head? = some 0x0A then none
    else if spaceWidth s = 0 then some s
    else skipSpaceN fuel (s.drop (spaceWidth s))

/-- The value of a run of decimal digits. -/
def decimalValue (digits : Bytes) : Nat :=
  digits.foldl (fun acc d => 10 * acc + (d - 0x30)) 0

/-- Go `fmt.Sscanf(s, "%d", &length)` with `length` an `int64`: leading space is
skipped, one optional sign is accepted, then the longest run of decimal digits (at
least one) is converted with `strconv.ParseInt(tok, 10, 64)`; what follows the digits
is not read.  `none` stands for a non-nil error. -/
def Sscanf_d (s : Bytes) : Option Int :=
  match skipSpaceN s.length s with
  | none => none
  | some s =>
    let negative := s.head? = some 0x2D
    let s := if s.head? = some 0x2B ∨ s.head? = some 0x2D then s.drop 1 else s
    let digits := s.takeWhile (fun c => 0x30 ≤ c ∧ c ≤ 0x39)
    if digits = [] then none
    else
      let value : Int := if negative then -(decimalValue digits : Int) else decimalValue digits
      if -(2 ^ 63 : Int) ≤ value ∧ value < 2 ^ 63 then some value else none

/-- Decimal digits of `n`, most significant first, in front of `acc`. -/
def formatNatN : Nat → Nat → Bytes → Bytes
  | 0, _, acc => acc
  | fuel + 1, n, acc =>
    if n < 10 then (0x30 + n) :: acc
    else formatNatN fuel (n / 10) ((0x30 + n % 10) :: acc)

/-- Go `fmt.Sprintf("%d", n)` for `n ≥ 0`. -/
def formatNat (n : Nat) : Bytes :=
  formatNatN (n + 1) n []

/-- Go `fmt.Sprintf("%d", i)`. -/
def formatInt : Int → Bytes
  | .ofNat n => formatNat n
  | .negSucc n => 0x2D :: formatNat (n + 1)

/-! ## Maps -/

/-- Go `m[k]` with the comma-ok result. -/
def mapGet {β : Type} : List (Bytes × β) → Bytes → Option β
  | [], _ => none
  | (k, v) :: m, key => if k = key then some v else mapGet m key

/-- Go `m[k] = v`. -/
def mapSet {β : Type} : List (Bytes × β) → Bytes → β → List (Bytes × β)
  | [], key, val => [(key, val)]
  | (k, v) :: m, key, val => if k = key then (k, val) :: m else (k, v) :: mapSet m key val

/-! ## Data model (`server.go`, `response.go`, `request.go`, `header.go`) -/

/-- Go `type Method string`. -/
abbrev Method := Bytes

def GET : Method := bytes "GET"
def POST : Method := bytes "POST"
def PUT : Method := bytes "PUT"
def PATCH : Method := bytes "PATCH"
def DELETE : Method := bytes "DELETE"

/-- Go `type Header map[string][]string`. -/
abbrev Header := List (Bytes × List Bytes)

/-- The fields of `url.URL` the repository reads. -/
structure URL where
  Path : Bytes
  RawQuery : Bytes
deriving DecidableEq, Repr

/-- The `io.ReadCloser` stored in `Request.Body`, together with the unread part of the
connection's buffered reader it is bound to. -/
inductive Body where
  /-- Go `io.NopCloser(io.LimitReader(reader, length))`. -/
  | limit (reader : Bytes) (length : Int)
  /-- Go `io.NopCloser(reader)`. -/
  | raw (reader : Bytes)
  /-- Go `io.NopCloser(strings.NewReader(""))`. -/
  | empty
deriving DecidableEq, Repr

/-- Go `type Request struct`. -/
structure Request where
  Method : Bytes
  Header : Header
  URL : URL
  Body : Body
deriving DecidableEq, Repr

/-- Go `type Response struct`; `Body` and `Headers` are pointers / maps and may be nil. -/
structure Response where
  Status : Int
  Body : Option Bytes
  Headers : Option Header
deriving DecidableEq, Repr

/-- Go `type HTTPHandler func(res *Response, req *Request)`: the handler updates the
response in place or panics. -/
abbrev HTTPHandler := Response → Request → Except Bytes Response

/-- Go `type Route struct`. -/
structure Route where
  handler : HTTPHandler
  methods : List Method

/-- Go `type Pattern struct`. -/
structure Pattern where
  path : Bytes
  methods : List Method
deriving DecidableEq, Repr

/-- Go `type HTTPServer struct` (the lock is not modelled: one goroutine at a time). -/
structure HTTPServer where
  paths : List (Bytes × Route)

/-- Go `NewHTTPServer`. -/
def NewHTTPServer : HTTPServer :=
  { paths := [] }

/-! ## Headers and responses (`header.go`, `response.go`) -/

/-- Go `textproto.validHeaderFieldByte`: the token characters of RFC 7230. -/
def validHeaderFieldByte (c : Nat) : Bool :=
  (0x30 ≤ c ∧ c ≤ 0x39) ∨ (0x61 ≤ c ∧ c ≤ 0x7A) ∨ (0x41 ≤ c ∧ c ≤ 0x5A) ∨
    c ∈ [0x21, 0x23, 0x24, 0x25, 0x26, 0x27, 0x2A, 0x2B, 0x2D, 0x2E, 0x5E, 0x5F, 0x60, 0x7C,
      0x7E]

/-- The canonicalising loop of Go `textproto.canonicalMIMEHeaderKey`: upper case for the
first letter and after every dash, lower case elsewhere. -/
def canonicalLoop : Bool → Bytes → Bytes
  | _, [] => []
  | upper, c :: cs =>
    let c :=
      if upper ∧ 0x61 ≤ c ∧ c ≤ 0x7A then c - 0x20
      else if ¬upper ∧ 0x41 ≤ c ∧ c ≤ 0x5A then c + 0x20
      else c
    c :: canonicalLoop (c = 0x2D) cs

/-- Go `textproto.CanonicalMIMEHeaderKey`: a key with a byte that is not a token
character is returned unchanged. -/
def CanonicalMIMEHeaderKey (s : Bytes) : Bytes :=
  if s.all validHeaderFieldByte then canonicalLoop true s else s

/-- Go `Header.Add` (`textproto.MIMEHeader.Add`). -/
def Header.Add (h : Header) (key value : Bytes) : Header :=
  let key := CanonicalMIMEHeaderKey key
  mapSet h key ((mapGet h key).getD [] ++ [value])

/-- Go `Header.Set` (`textproto.MIMEHeader.Set`). -/
def Header.Set (h : Header) (key value : Bytes) : Header :=
  mapSet h (CanonicalMIMEHeaderKey key) [value]

/-- Go `Header.Values` (`textproto.MIMEHeader.Values`). -/
def Header.Values (h : Header) (key : Bytes) : List Bytes :=
  (mapGet h (CanonicalMIMEHeaderKey key)).getD []

/-- Go `Header.Get` (`textproto.MIMEHeader.Get`). -/
def Header.Get (h : Header) (key : Bytes) : Bytes :=
  (Header.Values h key).headD []

/-- Go `NewResponse`. -/
def NewResponse : Response :=
  { Status := 200, Body := some [], Headers := some [] }

/-- Go `Response.Write`: appends to the body buffer and returns `len(buf)`; a nil
buffer is a nil-pointer panic. -/
def Response.Write (r : Response) (buf : Bytes) : Except Bytes (Response × Nat) :=
  match r.Body with
  | none => .error (bytes "runtime error: invalid memory address or nil pointer dereference")
  | some body => .ok ({ r with Body := some (body ++ buf) }, buf.length)

/-- Go `Response.WriteHeader`. -/
def Response.WriteHeader (r : Response) (statusCode : Int) : Except Bytes Response :=
  if statusCode < 100 ∨ statusCode > 999 then
    .error (bytes "Недопустимый статус код " ++ formatInt statusCode)
  else .ok { r with Status := statusCode }

/-- Go `http.StatusText`: the reason phrase of a status code, empty when unknown. -/
def StatusText (code : Int) : Bytes :=
  (([ (100, "Continue"), (101, "Switching Protocols"), (102, "Processing"),
      (103, "Early Hints"), (200, "OK"), (201, "Created"), (202, "Accepted"),
      (203, "Non-Authoritative Information"), (204, "No Content"), (205, "Reset Content"),
      (206, "Partial Content"), (207, "Multi-Status"), (208, "Already Reported"),
      (226, "IM Used"), (300, "Multiple Choices"), (301, "Moved Permanently"),
      (302, "Found"), (303, "See Other"), (304, "Not Modified"), (305, "Use Proxy"),
      (307, "Temporary Redirect"), (308, "Permanent Redirect"), (400, "Bad Request"),
      (401, "Unauthorized"), (402, "Payment Required"), (403, "Forbidden"),
      (404, "Not Found"), (405, "Method Not Allowed"), (406, "Not Acceptable"),
      (407, "Proxy Authentication Required"), (408, "Request Timeout"), (409, "Conflict"),
      (410, "Gone"), (411, "Length Required"), (412, "Precondition Failed"),
      (413, "Request Entity Too Large"), (414, "Request URI Too Long"),
      (415, "Unsupported Media Type"), (416, "Requested Range Not Satisfiable"),
      (417, "Expectation Failed"), (418, "I\x27m a teapot"), (421, "Misdirected Request"),
      (422, "Unprocessable Entity"), (423, "Locked"), (424, "Failed Dependency"),
      (425, "Too Early"), (426, "Upgrade Required"), (428, "Precondition Required"),
      (429, "Too Many Requests"), (431, "Request Header Fields Too Large"),
      (451, "Unavailable For Legal Reasons"), (500, "Internal Server Error"),
      (501, "Not Implemented"), (502, "Bad Gateway"), (503, "Service Unavailable"),
      (504, "Gateway Timeout"), (505, "HTTP Version Not Supported"),
      (506, "Variant Also Negotiates"), (507, "Insufficient Storage"),
      (508, "Loop Detected"), (510, "Not Extended"),
      (511, "Network Authentication Required") ] : List (Int × String)).lookup code).elim []
    bytes

/-! ## Pattern parsing and registration -/

/-- The closure `deleteUnusedMethods` of `parsePattern`: `for m := range methods`
deletes every key different from `currentMethod`, then panics on an empty map. -/
def deleteUnusedMethods (pattern : Bytes) (currentMethod : Method) (methods : List Method) :
    Except Bytes (List Method) :=
  let methods :=
    methods.foldl (fun acc m => if m ≠ currentMethod then acc.erase m else acc) methods
  if methods.length = 0 then .error (bytes "недопустимый метод: " ++ pattern)
  else .ok methods

/-- Go `HTTPServer.parsePattern`. -/
def parsePattern (pattern : Bytes) : Except Bytes Pattern :=
  if pattern = [] then .error (bytes "паттерн не найден")
  else
    let patternChunks := splitOn 0x20 pattern
    let methods := [GET, POST, PUT, PATCH, DELETE]
    if patternChunks.length > 2 then .error (bytes "недопустимый паттерн: " ++ pattern)
    else
      match patternChunks with
      | [chunk0, chunk1] =>
        match deleteUnusedMethods pattern chunk0 methods with
        | .error msg => .error msg
        | .ok methods => .ok { path := chunk1, methods := methods }
      | _ => .ok { path := pattern, methods := methods }

/-- The loop of `registerRoute`: `for m := range pattern.methods`, panicking on a
method the existing route already has and adding the others to its method set. -/
def mergeMethods : List Method → List Method → Except Bytes (List Method)
  | [], existing => .ok existing
  | m :: ms, existing =>
    if m ∈ existing then .error (bytes "Метод уже существует: " ++ m)
    else mergeMethods ms (existing ++ [m])

/-- Go `HTTPServer.registerRoute`.  The `methods` map of `existRoute` is shared with the
route stored in `s.paths`, so the additions of the loop are stored back.  A panic ends
the call: the registry a recovered panic would leave behind is not described. -/
def registerRoute (s : HTTPServer) (pattern : Pattern) (handler : HTTPHandler) :
    Except Bytes HTTPServer :=
  let route : Route := { handler := handler, methods := pattern.methods }
  match mapGet s.paths pattern.path with
  | none => .ok { paths := mapSet s.paths pattern.path route }
  | some existRoute =>
    match mergeMethods pattern.methods existRoute.methods with
    | .error msg => .error msg
    | .ok merged =>
      .ok { paths := mapSet s.paths pattern.path { existRoute with methods := merged } }

/-- Go `HTTPServer.HandleFunc`. -/
def HandleFunc (s : HTTPServer) (pattern : Bytes) (handler : HTTPHandler) :
    Except Bytes HTTPServer :=
  match parsePattern pattern with
  | .error msg => .error msg
  | .ok parsedPattern => registerRoute s parsedPattern handler


/-! ## Request decoder and connection handler -/

/-- The standard-library behaviour the repository relies on and does not define. -/
structure Stdlib where
  /-- Go `url.Parse`; `none` stands for a non-nil error. -/
  urlParse : Bytes → Option URL
  /-- The order in which `for key, values := range response.Headers` visits the
  entries of the map (left unspecified by Go). -/
  rangeHeaders : Header → Header

/-- The `return nil, ...` sites of `readRequest`. -/
inductive DecodeError where
  /-- Line 144: the stream ended before the end of the request line. -/
  | requestLineRead
  /-- Line 151: the request line does not have three tokens. -/
  | requestLineFormat
  /-- Line 158: `url.Parse` failed. -/
  | urlParse
  /-- Line 165: the stream ended before the blank line. -/
  | headerRead
  /-- Line 175: a header line without a colon. -/
  | headerFormat (line : Bytes)
  /-- Line 190: `fmt.Sscanf` failed on the `Content-Length` value. -/
  | contentLength
deriving DecidableEq, Repr

/-- The header loop of `readRequest` (lines 162-181), run for at most `fuel` lines:
the headers read and the rest of the stream after the blank line. -/
def readHeaders : Nat → Bytes → Header → Except DecodeError (Header × Bytes)
  | 0, _, _ => .error .headerRead
  | fuel + 1, reader, headers =>
    match ReadString 0x0A reader with
    | none => .error .headerRead
    | some (line, reader) =>
      let line := TrimSpace line
      if line = [] then .ok (headers, reader)
      else
        match Index line 0x3A with
        | none => .error (.headerFormat line)
        | some colonIndex =>
          let key := TrimSpace (line.take colonIndex)
          let value := TrimSpace (line.drop (colonIndex + 1))
          readHeaders fuel reader (mapSet headers key ((mapGet headers key).getD [] ++ [value]))

/-- The body framing of `readRequest` (lines 183-197). -/
def readBody (reader : Bytes) (headers : Header) : Except DecodeError Body :=
  match (mapGet headers (bytes "Content-Length")).bind List.getLast? with
  | some contentLength =>
    match Sscanf_d contentLength with
    | none => .error .contentLength
    | some length => .ok (.limit reader length)
  | none =>
    match (mapGet headers (bytes "Transfer-Encoding")).bind List.getLast? with
    | some te => if ToLower te = bytes "chunked" then .ok (.raw reader) else .ok .empty
    | none => .ok .empty

/-- Go `HTTPServer.readRequest`: the decoded request and the part of the stream left
unread in the buffered reader.  Every header line takes at least one byte, so
`reader.length + 1` rounds of the header loop reach the end of the stream. -/
def readRequest (std : Stdlib) (reader : Bytes) : Except DecodeError (Request × Bytes) :=
  match ReadString 0x0A reader with
  | none => .error .requestLineRead
  | some (requestLine, reader) =>
    let requestLine := TrimSpace requestLine
    match splitOn 0x20 requestLine with
    | [method, rawURL, _] =>
      match std.urlParse rawURL with
      | none => .error .urlParse
      | some parsedURL =>
        match readHeaders (reader.length + 1) reader [] with
        | .error e => .error e
        | .ok (headers, reader) =>
          match readBody reader headers with
          | .error e => .error e
          | .ok body =>
            .ok ({ Method := method, URL := parsedURL, Header := headers, Body := body }, reader)
    | _ => .error .requestLineFormat

/-- Go `io.ReadAll(req.Body)`: the bytes a handler gets by reading the body to the end. -/
def Body.readAll : Body → Bytes
  | .limit reader length => if length ≤ 0 then [] else reader.take length.toNat
  | .raw reader => reader
  | .empty => []

/-- What one run of `handleConn` does to the outside: the bytes written to the
connection, in order, and the handler invocations with their arguments. -/
structure ConnTrace where
  written : Bytes
  calls : List (HTTPHandler × Response × Request)

/-- The response written by the deferred `recover` (line 80). -/
def internalServerError : Bytes :=
  bytes "HTTP/1.1 500 Internal Server Error" ++ bytes "\r\nContent-Length: 0"

/-- The header loop of `handleConn` (lines 120-127): one line per value. -/
def headerLines (headers : Header) : Bytes :=
  headers.flatMap fun (key, values) =>
    values.flatMap fun value => key ++ bytes ": " ++ value ++ bytes "\r\n"

/-- Go `HTTPServer.handleConn` on a connection whose peer sends `conn` and accepts
every write.  A panic after the handler returned (a nil `Body` or `Headers` at line
118) reaches the deferred `recover` once the status line is on the wire. -/
def handleConn (std : Stdlib) (s : HTTPServer) (conn : Bytes) : ConnTrace :=
  match readRequest std conn with
  | .error _ => { written := [], calls := [] }
  | .ok (request, _) =>
    let path := request.URL.Path
    match mapGet s.paths path with
    | none =>
      { written := bytes "HTTP/1.1 404 Not Found" ++ bytes "\r\nContent-Length: 0", calls := [] }
    | some route =>
      if request.Method ∉ route.methods then
        { written := bytes "HTTP/1.1 405 Method Not Allowed" ++ bytes "\r\nContent-Length: 0",
          calls := [] }
      else
        let response := NewResponse
        let calls := [(route.handler, response, request)]
        match route.handler response request with
        | .error _ => { written := internalServerError, calls := calls }
        | .ok response =>
          let statusText := if StatusText response.Status = [] then bytes "Unknown Status"
            else StatusText response.Status
          let statusLine :=
            bytes "HTTP/1.1 " ++ formatInt response.Status ++ bytes " " ++ statusText ++
              bytes "\r\n"
          match response.Body, response.Headers with
          | some body, some headers =>
            let headers := Header.Add headers (bytes "Content-Length") (formatNat body.length)
            { written := statusLine ++ headerLines (std.rangeHeaders headers) ++ bytes "\r\n" ++
                body,
              calls := calls }
          | _, _ => { written := statusLine ++ internalServerError, calls := calls }

/-- A stand-in for `url.Parse` on origin-form targets made of `/`, letters, digits and
`-._~`, with an optional `?query` of the same characters and `=&`: there `url.Parse`
returns the text before `?` as `Path` and the text after it as `RawQuery`.  Other
targets are refused. -/
def parsePlainTarget (rawURL : Bytes) : Option URL :=
  let plain := fun (c : Nat) =>
    ((0x30 ≤ c ∧ c ≤ 0x39) ∨ (0x61 ≤ c ∧ c ≤ 0x7A) ∨ (0x41 ≤ c ∧ c ≤ 0x5A) ∨
      c ∈ [0x2D, 0x2E, 0x5F, 0x7E] : Bool)
  let path := rawURL.takeWhile (· ≠ 0x3F)
  let query := (rawURL.dropWhile (· ≠ 0x3F)).drop 1
  if path.head? = some 0x2F ∧ (path.drop 1).head? ≠ some 0x2F ∧
      path.all (fun c => plain c || c = 0x2F) ∧
      query.all (fun c => plain c || c = 0x3D || c = 0x26) then
    some { Path := path, RawQuery := query }
  else none

/-- A standard library for running the model on plain requests: `parsePlainTarget` and
headers visited in insertion order. -/
def plainStdlib : Stdlib :=
  { urlParse := parsePlainTarget, rangeHeaders := id }

/-! ## Header blocks, as the specification describes them -/

/-- The key of a header line: the text before its first colon, trimmed. -/
def headerKey (line : Bytes) : Bytes :=
  TrimSpace (line.takeWhile (· ≠ 0x3A))

/-- The value of a header line: the text after its first colon, trimmed. -/
def headerValue (line : Bytes) : Bytes :=
  TrimSpace ((line.dropWhile (· ≠ 0x3A)).drop 1)

/-- The values of all lines with the given key, in the order of the lines. -/
def headerValues (lines : List Bytes) (key : Bytes) : List Bytes :=
  (lines.filter (fun line => headerKey line = key)).map headerValue

/-- The header map built by adding the lines one after the other. -/
def collectHeaders (headers : Header) (lines : List Bytes) : Header :=
  lines.foldl
    (fun h line => mapSet h (headerKey line) ((mapGet h (headerKey line)).getD [] ++
      [headerValue line]))
    headers

/-- The bytes of a sequence of lines, each ended by `\n`. -/
def headerBlock (lines : List Bytes) : Bytes :=
  lines.flatMap (· ++ [0x0A])

/-- A request stream: the request line, header lines, one more line (`last`), each
ended by `\n`, and the bytes that follow. -/
def requestStream (requestLine : Bytes) (lines : List Bytes) (last rest : Bytes) : Bytes :=
  requestLine ++ 0x0A :: (headerBlock lines ++ (last ++ 0x0A :: rest))

/-! ## Bodies, handlers and response encoding, as the specification describes them -/

/-- What is left unread in the buffered reader once the body has been read to the end;
`reader` is the unread part of the stream when `readRequest` returned. -/
def Body.unread : Body → Bytes → Bytes
  | .limit reader length, _ => if length ≤ 0 then reader else reader.drop length.toNat
  | .raw _, _ => []
  | .empty, reader => reader

/-- A call a handler makes on its `*Response`. -/
inductive ResponseOp where
  /-- Go `res.Write(buf)`. -/
  | Write (buf : Bytes)
  /-- Go `res.Header().Add(key, value)`. -/
  | HeaderAdd (key value : Bytes)
  /-- Go `res.Header().Set(key, value)`. -/
  | HeaderSet (key value : Bytes)
  /-- Go `res.WriteHeader(statusCode)`. -/
  | WriteHeader (statusCode : Int)
deriving DecidableEq, Repr

/-- One call on the response, in place: the response after the call and the panic
value when the call panicked.  Every panic of `response.go` and of a map assignment is
raised before anything is assigned, so a panicking call leaves the response as it
was. -/
def ResponseOp.apply (r : Response) : ResponseOp → Response × Option Bytes
  | .Write buf =>
    match r.Write buf with
    | .ok (r', _) => (r', none)
    | .error msg => (r, some msg)
  | .HeaderAdd key value =>
    match r.Headers with
    | some h => ({ r with Headers := some (h.Add key value) }, none)
    | none => (r, some (bytes "assignment to entry in nil map"))
  | .HeaderSet key value =>
    match r.Headers with
    | some h => ({ r with Headers := some (h.Set key value) }, none)
    | none => (r, some (bytes "assignment to entry in nil map"))
  | .WriteHeader statusCode =>
    match r.WriteHeader statusCode with
    | .ok r' => (r', none)
    | .error msg => (r, some msg)

/-- A sequence of calls on the response, stopped by the first panic: the response as
it is at the end and the panic value, if any. -/
def runOps : Response → List ResponseOp → Response × Option Bytes
  | r, [] => (r, none)
  | r, op :: ops =>
    match op.apply r with
    | (r', none) => runOps r' ops
    | (r', some msg) => (r', some msg)

/-- The handler that makes the given calls on its response and nothing else. -/
def handlerOf (ops : List ResponseOp) : HTTPHandler :=
  fun res _ =>
    match runOps res ops with
    | (r, none) => .ok r
    | (_, some msg) => .error msg

/-- The buffers passed to `Write`, concatenated. -/
def writtenBuffers : List ResponseOp → Bytes
  | [] => []
  | .Write buf :: ops => buf ++ writtenBuffers ops
  | _ :: ops => writtenBuffers ops

/-- The status line of `handleConn` (lines 108-113). -/
def statusLine (status : Int) : Bytes :=
  bytes "HTTP/1.1 " ++ formatInt status ++ bytes " " ++
    (if StatusText status = [] then bytes "Unknown Status" else StatusText status) ++
    bytes "\r\n"

/-- The (key, value) pairs of a header map, the values of one key in their order. -/
def headerPairs (headers : Header) : List (Bytes × Bytes) :=
  headers.flatMap fun (key, values) => values.map fun value => (key, value)

/-- One encoded header line, `key: value\r\n`. -/
def headerLine (pair : Bytes × Bytes) : Bytes :=
  pair.1 ++ bytes ": " ++ pair.2 ++ bytes "\r\n"

/-- The handler of one call `res.Write("hello world\n")`. -/
def helloWorld : HTTPHandler :=
  handlerOf [.Write (bytes "hello world\n")]

/-- The registry after `HandleFunc("/", helloWorld)`. -/
def serverRoot : HTTPServer :=
  { paths := [(bytes "/", { handler := helloWorld, methods := [GET, POST, PUT, PATCH, DELETE] })] }

/-! ## Concrete instances -/

/-- A handler that writes `one` to the response. -/
def writesOne : HTTPHandler :=
  fun res _ => (res.Write (bytes "one")).map (·.1)

/-- A handler that writes `two` to the response. -/
def writesTwo : HTTPHandler :=
  fun res _ => (res.Write (bytes "two")).map (·.1)

/-- The registry after `HandleFunc("GET /x", writesOne)`. -/
def serverGetX : HTTPServer :=
  { paths := [(bytes "/x", { handler := writesOne, methods := [GET] })] }

/-- The registry after `HandleFunc("GET /x", writesOne)` and
`HandleFunc("POST /x", writesTwo)`. -/
def serverGetPostX : HTTPServer :=
  { paths := [(bytes "/x", { handler := writesOne, methods := [GET, POST] })] }

/-- The registry after `HandleFunc("GET /x", h)` for a handler `h` that writes `partial`
and then calls `WriteHeader(1000)`. -/
def serverPanics : HTTPServer :=
  { paths := [(bytes "/x",
      { handler := handlerOf [.Write (bytes "partial"), .WriteHeader 1000], methods := [GET] })] }

/-- The registry after `HandleFunc("GET /x", h)` for a handler `h` that writes `ok`. -/
def serverOk : HTTPServer :=
  { paths := [(bytes "/x", { handler := handlerOf [.Write (bytes "ok")], methods := [GET] })] }

/-- The registry after `HandleFunc("GET /x", h)` for a handler `h` that stores its own
`content-length`, writes `h` and `i`, and adds two values under `x-a`. -/
def serverOwnLength : HTTPServer :=
  { paths := [(bytes "/x",
      { handler := handlerOf [.HeaderAdd (bytes "content-length") (bytes "99"),
          .Write (bytes "h"), .HeaderAdd (bytes "x-a") (bytes "1"), .Write (bytes "i"),
          .HeaderAdd (bytes "X-A") (bytes "2")],
        methods := [GET] })] }

/-! ## Lemmas on the library models -/

theorem splitOn_cons (sep c : Nat) (cs : Bytes) :
    splitOn sep (c :: cs) =
      if c = sep then [] :: splitOn sep cs
      else
        match splitOn sep cs with
        | [] => [[c]]
        | p :: ps => (c :: p) :: ps := by
  rw [splitOn]

theorem splitOn_ne_nil (sep : Nat) (s : Bytes) : splitOn sep s ≠ [] := by
  induction s with
  | nil => simp [splitOn]
  | cons c cs ih =>
    unfold splitOn
    split_ifs
    · simp
    · split <;> simp

theorem splitOn_of_not_mem (sep : Nat) (s : Bytes) (h : sep ∉ s) : splitOn sep s = [s] := by
  induction s with
  | nil => rfl
  | cons c cs ih =>
    simp only [List.mem_cons, not_or] at h
    unfold splitOn
    rw [if_neg (fun hc => h.1 hc.symm), ih h.2]

theorem splitOn_append (sep : Nat) (a b : Bytes) (h : sep ∉ a) :
    splitOn sep (a ++ sep :: b) = a :: splitOn sep b := by
  induction a with
  | nil => simp [splitOn]
  | cons c cs ih =>
    simp only [List.mem_cons, not_or] at h
    simp only [List.cons_append]
    rw [splitOn_cons, if_neg (fun hc => h.1 hc.symm), ih h.2]

/-- Splitting gives one piece exactly when the separator does not occur. -/
theorem splitOn_length_eq_one (sep : Nat) (s : Bytes) :
    (splitOn sep s).length = 1 ↔ sep ∉ s := by
  constructor
  · intro h hmem
    induction s with
    | nil => simp at hmem
    | cons c cs ih =>
      unfold splitOn at h
      by_cases hc : c = sep
      · rw [if_pos hc] at h
        have := splitOn_ne_nil sep cs
        cases hs : splitOn sep cs with
        | nil => exact this hs
        | cons p ps => rw [hs] at h; simp at h
      · rw [if_neg hc] at h
        have hmem2 : sep ∈ cs := by
          rcases List.mem_cons.1 hmem with h1 | h1
          · exact absurd h1.symm hc
          · exact h1
        apply ih _ hmem2
        cases hs : splitOn sep cs with
        | nil => exact absurd hs (splitOn_ne_nil sep cs)
        | cons p ps => rw [hs] at h; simpa using h
  · intro h
    rw [splitOn_of_not_mem sep s h]; rfl

/-- The pieces of a split, joined by the separator, give the string back. -/
theorem splitOn_two (sep : Nat) (s a b : Bytes) (h : splitOn sep s = [a, b]) :
    s = a ++ sep :: b ∧ sep ∉ a ∧ sep ∉ b := by
  induction s generalizing a with
  | nil => simp [splitOn] at h
  | cons c cs ih =>
    unfold splitOn at h
    by_cases hc : c = sep
    · rw [if_pos hc] at h
      simp only [List.cons.injEq] at h
      obtain ⟨ha, hb⟩ := h
      subst ha hc
      have h1 : (splitOn c cs).length = 1 := by rw [hb]; rfl
      have hnot := (splitOn_length_eq_one c cs).1 h1
      rw [splitOn_of_not_mem c cs hnot] at hb
      simp only [List.cons.injEq, and_true] at hb
      subst hb
      simp [hnot]
    · rw [if_neg hc] at h
      cases hs : splitOn sep cs with
      | nil => exact absurd hs (splitOn_ne_nil sep cs)
      | cons p ps =>
        rw [hs] at h
        simp only [List.cons.injEq] at h
        obtain ⟨ha, hb⟩ := h
        subst ha hb
        obtain ⟨h1, h2, h3⟩ := ih p hs
        refine ⟨by rw [h1]; rfl, ?_, h3⟩
        simp only [List.mem_cons, not_or]
        exact ⟨fun hh => hc hh.symm, h2⟩

theorem deleteUnusedMethods_eq (pattern : Bytes) (c : Method) :
    deleteUnusedMethods pattern c [GET, POST, PUT, PATCH, DELETE] =
      if c ∈ [GET, POST, PUT, PATCH, DELETE] then .ok [c]
      else .error (bytes "недопустимый метод: " ++ pattern) := by
  by_cases h1 : c = GET
  · subst h1; rfl
  by_cases h2 : c = POST
  · subst h2; rfl
  by_cases h3 : c = PUT
  · subst h3; rfl
  by_cases h4 : c = PATCH
  · subst h4; rfl
  by_cases h5 : c = DELETE
  · subst h5; rfl
  have e1 : ¬ GET = c := fun h => h1 h.symm
  have e2 : ¬ POST = c := fun h => h2 h.symm
  have e3 : ¬ PUT = c := fun h => h3 h.symm
  have e4 : ¬ PATCH = c := fun h => h4 h.symm
  have e5 : ¬ DELETE = c := fun h => h5 h.symm
  have hmem : c ∉ [GET, POST, PUT, PATCH, DELETE] := by simp [h1, h2, h3, h4, h5]
  rw [if_neg hmem]
  simp only [deleteUnusedMethods, List.foldl, ne_eq, e1, e2, e3, e4, e5, not_false_eq_true,
    if_true]
  rfl


theorem spaceWidth_le (s : Bytes) : spaceWidth s ≤ s.length := by
  rcases s with _ | ⟨b0, _ | ⟨b1, _ | ⟨b2, t⟩⟩⟩ <;> simp only [spaceWidth, List.length_cons] <;>
    (try split_ifs) <;> omega

/-- With fuel for every byte, nothing is left to trim on the left. -/
theorem spaceWidth_trimLeftN (n : Nat) (s : Bytes) (h : s.length ≤ n) :
    spaceWidth (trimLeftN n s) = 0 := by
  induction n generalizing s with
  | zero =>
    have hs : s = [] := List.length_eq_zero.1 (by omega)
    subst hs
    rfl
  | succ n ih =>
    unfold trimLeftN
    split_ifs with hw
    · exact hw
    · apply ih
      rw [List.length_drop]
      omega

theorem lastSpaceWidth_le (s : Bytes) : lastSpaceWidth s ≤ s.length := by
  unfold lastSpaceWidth
  split_ifs with h1 h2 h3 <;> omega

/-- With fuel for every byte, nothing is left to trim on the right. -/
theorem lastSpaceWidth_trimRightN (n : Nat) (s : Bytes) (h : s.length ≤ n) :
    lastSpaceWidth (trimRightN n s) = 0 := by
  induction n generalizing s with
  | zero =>
    have hs : s = [] := List.length_eq_zero.1 (by omega)
    subst hs
    rfl
  | succ n ih =>
    unfold trimRightN
    split_ifs with hw
    · exact hw
    · apply ih
      have := lastSpaceWidth_le s
      rw [List.length_take]
      omega

/-- The result of `TrimSpace` does not end with white space. -/
theorem TrimSpace_trimmed (s : Bytes) : lastSpaceWidth (TrimSpace s) = 0 :=
  lastSpaceWidth_trimRightN _ _ (le_refl _)

/-- The bytes of a white-space code point do not include the colon. -/
theorem colon_not_mem_take_spaceWidth (s : Bytes) : 0x3A ∉ s.take (spaceWidth s) := by
  rcases s with _ | ⟨b0, _ | ⟨b1, _ | ⟨b2, t⟩⟩⟩ <;> simp only [spaceWidth] <;>
    (try split_ifs) <;> simp <;> omega

theorem colon_mem_trimLeftN (n : Nat) (s : Bytes) (h : 0x3A ∈ s) : 0x3A ∈ trimLeftN n s := by
  induction n generalizing s with
  | zero => exact h
  | succ n ih =>
    unfold trimLeftN
    split_ifs with hw
    · exact h
    · apply ih
      rw [← List.take_append_drop (spaceWidth s) s] at h
      rcases List.mem_append.1 h with h1 | h1
      · exact absurd h1 (colon_not_mem_take_spaceWidth s)
      · exact h1

theorem colon_not_mem_drop_lastSpaceWidth (s : Bytes) :
    0x3A ∉ s.drop (s.length - lastSpaceWidth s) := by
  have key : ∀ k, k ≤ s.length → spaceWidth (s.drop (s.length - k)) = k →
      0x3A ∉ s.drop (s.length - k) := by
    intro k hk hw
    have h1 := colon_not_mem_take_spaceWidth (s.drop (s.length - k))
    rw [hw, List.take_of_length_le (by simp; omega)] at h1
    exact h1
  unfold lastSpaceWidth
  split_ifs with h1 h2 h3
  · exact key 1 h1.1 h1.2
  · exact key 2 h2.1 h2.2
  · exact key 3 h3.1 h3.2
  · simp

theorem colon_mem_trimRightN (n : Nat) (s : Bytes) (h : 0x3A ∈ s) : 0x3A ∈ trimRightN n s := by
  induction n generalizing s with
  | zero => exact h
  | succ n ih =>
    unfold trimRightN
    split_ifs with hw
    · exact h
    · apply ih
      rw [← List.take_append_drop (s.length - lastSpaceWidth s) s] at h
      rcases List.mem_append.1 h with h1 | h1
      · exact h1
      · exact absurd h1 (colon_not_mem_drop_lastSpaceWidth s)

/-- Trimming never removes a colon. -/
theorem colon_mem_TrimSpace (s : Bytes) (h : 0x3A ∈ s) : 0x3A ∈ TrimSpace s :=
  colon_mem_trimRightN _ _ (colon_mem_trimLeftN _ _ h)

theorem mem_of_mem_trimLeftN (x n : Nat) (s : Bytes) (h : x ∈ trimLeftN n s) : x ∈ s := by
  induction n generalizing s with
  | zero => exact h
  | succ n ih =>
    unfold trimLeftN at h
    split_ifs at h with hw
    · exact h
    · exact List.mem_of_mem_drop (ih _ h)

theorem mem_of_mem_trimRightN (x n : Nat) (s : Bytes) (h : x ∈ trimRightN n s) : x ∈ s := by
  induction n generalizing s with
  | zero => exact h
  | succ n ih =>
    unfold trimRightN at h
    split_ifs at h with hw
    · exact h
    · exact List.mem_of_mem_take (ih _ h)

/-- Trimming only removes bytes. -/
theorem mem_of_mem_TrimSpace (x : Nat) (s : Bytes) (h : x ∈ TrimSpace s) : x ∈ s :=
  mem_of_mem_trimLeftN _ _ _ (mem_of_mem_trimRightN _ _ _ h)

theorem Index_eq_none_iff (s : Bytes) (sep : Nat) : Index s sep = none ↔ sep ∉ s := by
  induction s with
  | nil => simp [Index]
  | cons c cs ih =>
    by_cases hc : c = sep
    · simp [Index, hc]
    · have hc2 : ¬ sep = c := fun e => hc e.symm
      simp [Index, hc, hc2, ih]

/-- The index found by `Index` cuts the string at the first separator. -/
theorem Index_eq_some (s : Bytes) (sep i : Nat) (h : Index s sep = some i) :
    s.take i = s.takeWhile (· ≠ sep) ∧ s.drop (i + 1) = (s.dropWhile (· ≠ sep)).drop 1 := by
  induction s generalizing i with
  | nil => simp [Index] at h
  | cons c cs ih =>
    by_cases hc : c = sep
    · simp only [Index, if_pos hc, Option.some.injEq] at h
      subst h
      simp [hc]
    · simp only [Index, if_neg hc, Option.map_eq_some'] at h
      obtain ⟨j, hj, hji⟩ := h
      subst hji
      obtain ⟨h1, h2⟩ := ih j hj
      simp [hc, h1, h2]

theorem ReadString_append (delim : Nat) (line rest : Bytes) (h : delim ∉ line) :
    ReadString delim (line ++ delim :: rest) = some (line ++ [delim], rest) := by
  induction line with
  | nil => simp [ReadString]
  | cons c cs ih =>
    simp only [List.mem_cons, not_or] at h
    have hc : ¬ c = delim := fun e => h.1 e.symm
    simp [ReadString, hc, ih h.2]

/-- Reading a line consumes at least one byte. -/
theorem ReadString_length (delim : Nat) (reader line rest : Bytes)
    (h : ReadString delim reader = some (line, rest)) : rest.length < reader.length := by
  induction reader generalizing line with
  | nil => simp [ReadString] at h
  | cons c cs ih =>
    by_cases hc : c = delim
    · simp only [ReadString, if_pos hc, Option.some.injEq, Prod.mk.injEq] at h
      simp [← h.2]
    · simp only [ReadString, if_neg hc] at h
      cases hr : ReadString delim cs with
      | none => simp [hr] at h
      | some p =>
        obtain ⟨l, r⟩ := p
        simp only [hr, Option.some.injEq, Prod.mk.injEq] at h
        obtain ⟨_, h2⟩ := h
        subst h2
        have := ih l hr
        simp only [List.length_cons]
        omega

/-- The header loop never runs out of fuel: any two amounts of fuel above the length of
the stream give the same result. -/
theorem readHeaders_fuel (n m : Nat) (reader : Bytes) (headers : Header)
    (hn : reader.length < n) (hm : reader.length < m) :
    readHeaders n reader headers = readHeaders m reader headers := by
  induction n generalizing m reader headers with
  | zero => omega
  | succ n ih =>
    cases m with
    | zero => omega
    | succ m =>
      unfold readHeaders
      cases hr : ReadString 0x0A reader with
      | none => rfl
      | some p =>
        obtain ⟨line, rest⟩ := p
        have hlen := ReadString_length _ _ _ _ hr
        simp only
        split_ifs
        · rfl
        · cases Index (TrimSpace line) 0x3A with
          | none => rfl
          | some i => exact ih _ _ _ (by omega) (by omega)

theorem mapGet_mapSet_same {β : Type} (m : List (Bytes × β)) (key : Bytes) (val : β) :
    mapGet (mapSet m key val) key = some val := by
  induction m with
  | nil => simp [mapSet, mapGet]
  | cons kv m ih =>
    obtain ⟨k, v⟩ := kv
    by_cases hk : k = key
    · simp [mapSet, mapGet, hk]
    · simp [mapSet, mapGet, hk, ih]

theorem mapGet_mapSet_other {β : Type} (m : List (Bytes × β)) (key other : Bytes) (val : β)
    (h : other ≠ key) : mapGet (mapSet m key val) other = mapGet m other := by
  induction m with
  | nil =>
    have h2 : ¬ key = other := fun e => h e.symm
    simp [mapSet, mapGet, h2]
  | cons kv m ih =>
    obtain ⟨k, v⟩ := kv
    by_cases hk : k = key
    · have h2 : ¬ k = other := fun e => h (e.symm.trans hk)
      subst hk
      simp [mapSet, mapGet, h2]
    · by_cases ho : k = other
      · subst ho
        simp [mapSet, mapGet, hk]
      · simp [mapSet, mapGet, hk, ho, ih]

theorem mapGet_eq_none_iff {β : Type} (m : List (Bytes × β)) (key : Bytes) :
    mapGet m key = none ↔ ∀ entry ∈ m, entry.1 ≠ key := by
  induction m with
  | nil => simp [mapGet]
  | cons kv m ih =>
    obtain ⟨k, v⟩ := kv
    by_cases hk : k = key
    · simp [mapGet, hk]
    · simp [mapGet, hk, ih]

theorem mem_of_mapGet {β : Type} (m : List (Bytes × β)) (key : Bytes) (val : β)
    (h : mapGet m key = some val) : (key, val) ∈ m := by
  induction m with
  | nil => simp [mapGet] at h
  | cons kv m ih =>
    obtain ⟨k, v⟩ := kv
    by_cases hk : k = key
    · simp only [mapGet, if_pos hk, Option.some.injEq] at h
      simp [hk, h]
    · simp only [mapGet, if_neg hk] at h
      exact List.mem_cons_of_mem _ (ih h)

/-- A successful merge appends the new methods to the existing ones. -/
theorem mergeMethods_ok (ms existing merged : List Method)
    (h : mergeMethods ms existing = .ok merged) : merged = existing ++ ms := by
  induction ms generalizing existing with
  | nil =>
    simp only [mergeMethods, Except.ok.injEq] at h
    simp [h]
  | cons m ms ih =>
    by_cases hm : m ∈ existing
    · simp [mergeMethods, hm] at h
    · simp only [mergeMethods, if_neg hm] at h
      rw [ih _ h]
      simp

/-- The merge loop panics exactly when a new method is already present. -/
theorem mergeMethods_error_iff (ms existing : List Method) (hnd : ms.Nodup) :
    (∃ msg, mergeMethods ms existing = .error msg) ↔ ∃ m, m ∈ ms ∧ m ∈ existing := by
  induction ms generalizing existing with
  | nil => simp [mergeMethods]
  | cons m ms ih =>
    rw [List.nodup_cons] at hnd
    by_cases hm : m ∈ existing
    · simp only [mergeMethods, if_pos hm]
      exact ⟨fun _ => ⟨m, List.mem_cons_self _ _, hm⟩, fun _ => ⟨_, rfl⟩⟩
    · simp only [mergeMethods, if_neg hm]
      rw [ih _ hnd.2]
      constructor
      · rintro ⟨x, hx, hx2⟩
        rcases List.mem_append.1 hx2 with h1 | h1
        · exact ⟨x, List.mem_cons_of_mem _ hx, h1⟩
        · simp only [List.mem_singleton] at h1
          subst h1
          exact absurd hx hnd.1
      · rintro ⟨x, hx, hx2⟩
        rcases List.mem_cons.1 hx with h1 | h1
        · subst h1
          exact absurd hx2 hm
        · exact ⟨x, h1, List.mem_append_left _ hx2⟩

/-- The method set of a parsed pattern has no repeated key. -/
theorem parsePattern_nodup (pattern : Bytes) (pat : Pattern)
    (h : parsePattern pattern = .ok pat) : pat.methods.Nodup := by
  have hne : pattern ≠ [] := by
    intro h0
    subst h0
    simp [parsePattern] at h
  rcases hs : splitOn 0x20 pattern with _ | ⟨a, _ | ⟨b, _ | ⟨c, t⟩⟩⟩
  · exact absurd hs (splitOn_ne_nil _ _)
  · simp only [parsePattern, if_neg hne, hs] at h
    simp only [List.length_singleton, gt_iff_lt, Nat.not_ofNat_lt_one, ↓reduceIte,
      Except.ok.injEq] at h
    subst h
    show [GET, POST, PUT, PATCH, DELETE].Nodup
    decide
  · simp only [parsePattern, if_neg hne, hs, deleteUnusedMethods_eq] at h
    by_cases hmem : a ∈ [GET, POST, PUT, PATCH, DELETE]
    · rw [if_pos hmem] at h
      simp only [List.length_cons, List.length_nil, gt_iff_lt, lt_self_iff_false, ↓reduceIte,
        Except.ok.injEq] at h
      subst h
      simp
    · rw [if_neg hmem] at h
      simp at h
  · simp [parsePattern, hne, hs] at h

theorem headerBlock_cons (l : Bytes) (ls : List Bytes) (tail : Bytes) :
    headerBlock (l :: ls) ++ tail = l ++ 0x0A :: (headerBlock ls ++ tail) := by
  simp [headerBlock]

theorem length_le_headerBlock (lines : List Bytes) (tail : Bytes) :
    lines.length ≤ (headerBlock lines ++ tail).length := by
  induction lines with
  | nil => simp
  | cons l ls ih =>
    rw [headerBlock_cons]
    simp only [List.length_append, List.length_cons] at ih ⊢
    omega

/-- The header loop on a block of well-formed lines: the lines are added to the map and
the loop goes on with what follows the block. -/
theorem readHeaders_block (lines : List Bytes) (tail : Bytes) (fuel : Nat) (headers : Header)
    (hlines : ∀ l ∈ lines, 0x0A ∉ l ∧ 0x3A ∈ l) :
    readHeaders (lines.length + fuel) (headerBlock lines ++ tail) headers =
      readHeaders fuel tail
        (collectHeaders headers (lines.map (fun l => TrimSpace (l ++ [0x0A])))) := by
  induction lines generalizing headers with
  | nil => simp [headerBlock, collectHeaders]
  | cons l ls ih =>
    obtain ⟨hnl, hcolon⟩ := hlines l (List.mem_cons_self _ _)
    have hcolon2 : 0x3A ∈ TrimSpace (l ++ [0x0A]) :=
      colon_mem_TrimSpace _ (List.mem_append_left _ hcolon)
    have hne : TrimSpace (l ++ [0x0A]) ≠ [] := List.ne_nil_of_mem hcolon2
    rw [headerBlock_cons, List.length_cons, Nat.add_right_comm, readHeaders,
      ReadString_append _ _ _ hnl]
    simp only [if_neg hne]
    cases hi : Index (TrimSpace (l ++ [0x0A])) 0x3A with
    | none => exact absurd hcolon2 ((Index_eq_none_iff _ _).1 hi)
    | some i =>
      obtain ⟨h1, h2⟩ := Index_eq_some _ _ _ hi
      simp only [h1, h2]
      rw [ih _ (fun x hx => hlines x (List.mem_cons_of_mem _ hx))]
      rfl

/-- The map built from a list of lines holds, for every key, the values of the lines
with that key after the values it held before. -/
theorem mapGet_collectHeaders (lines : List Bytes) (headers : Header) (key : Bytes) :
    mapGet (collectHeaders headers lines) key =
      if headerValues lines key = [] then mapGet headers key
      else some ((mapGet headers key).getD [] ++ headerValues lines key) := by
  induction lines generalizing headers with
  | nil => simp [collectHeaders, headerValues]
  | cons t ts ih =>
    have hstep : collectHeaders headers (t :: ts) =
        collectHeaders (mapSet headers (headerKey t)
          ((mapGet headers (headerKey t)).getD [] ++ [headerValue t])) ts := rfl
    rw [hstep, ih]
    by_cases hk : headerKey t = key
    · subst hk
      have hv : headerValues (t :: ts) (headerKey t) =
          headerValue t :: headerValues ts (headerKey t) := by
        simp [headerValues]
      rw [hv, mapGet_mapSet_same]
      by_cases hvs : headerValues ts (headerKey t) = []
      · simp [hvs]
      · simp [hvs]
    · have hv : headerValues (t :: ts) key = headerValues ts key := by
        simp [headerValues, hk]
      rw [hv, mapGet_mapSet_other _ _ _ _ (fun e => hk e.symm)]

theorem readBody_cases (reader : Bytes) (headers : Header) :
    readBody reader headers = .error .contentLength ∨
      ∃ body, readBody reader headers = .ok body := by
  unfold readBody
  cases h1 : (mapGet headers (bytes "Content-Length")).bind List.getLast? with
  | some cl =>
    cases h2 : Sscanf_d cl with
    | none => simp [h2]
    | some n => simp [h2]
  | none =>
    cases h3 : (mapGet headers (bytes "Transfer-Encoding")).bind List.getLast? with
    | some te =>
      simp only
      split_ifs <;> simp
    | none => simp

/-! ## Pattern parsing -/

/-- C6: when `parsePattern` succeeds, a pattern without a space gives the whole pattern
as path with the method set GET, POST, PUT, PATCH, DELETE, and a pattern
`METHOD path` with exactly one space gives the text after the space as path with the
method set consisting of `METHOD` alone. -/
theorem parsePattern_result (pattern : Bytes) (pat : Pattern)
    (h : parsePattern pattern = .ok pat) :
    (0x20 ∉ pattern → pat = { path := pattern, methods := [GET, POST, PUT, PATCH, DELETE] }) ∧
    (∀ method path : Bytes, pattern = method ++ 0x20 :: path → 0x20 ∉ method → 0x20 ∉ path →
      pat = { path := path, methods := [method] }) := by
  have hne : pattern ≠ [] := by
    intro h0
    subst h0
    simp [parsePattern] at h
  constructor
  · intro hsp
    have hs := splitOn_of_not_mem 0x20 pattern hsp
    simp only [parsePattern, if_neg hne, hs] at h
    simpa using h.symm
  · intro method path hp hm hpath
    have hs : splitOn 0x20 pattern = [method, path] := by
      rw [hp, splitOn_append _ _ _ hm, splitOn_of_not_mem _ _ hpath]
    simp only [parsePattern, if_neg hne, hs, deleteUnusedMethods_eq] at h
    by_cases hmem : method ∈ [GET, POST, PUT, PATCH, DELETE]
    · rw [if_pos hmem] at h
      simpa using h.symm
    · rw [if_neg hmem] at h
      simp at h

theorem parsePattern_result_witness :
    parsePattern (bytes "GET /x") = .ok { path := bytes "/x", methods := [GET] } ∧
    (0x20 ∉ bytes "GET /x" →
      ({ path := bytes "/x", methods := [GET] } : Pattern) =
        { path := bytes "GET /x", methods := [GET, POST, PUT, PATCH, DELETE] }) ∧
    (∀ method path : Bytes, bytes "GET /x" = method ++ 0x20 :: path → 0x20 ∉ method →
      0x20 ∉ path →
      ({ path := bytes "/x", methods := [GET] } : Pattern) =
        { path := path, methods := [method] }) :=
  ⟨by decide, parsePattern_result (bytes "GET /x") _ (by decide)⟩

/-- C7: `parsePattern` panics exactly when the pattern is empty, or splits on single
spaces into more than two tokens, or splits into two tokens the first of which is
not one of GET, POST, PUT, PATCH, DELETE (compared byte for byte). -/
theorem parsePattern_panics_iff (pattern : Bytes) :
    (∃ msg, parsePattern pattern = .error msg) ↔
      (pattern = [] ∨ (splitOn 0x20 pattern).length > 2 ∨
        ∃ method path : Bytes, splitOn 0x20 pattern = [method, path] ∧
          method ∉ [GET, POST, PUT, PATCH, DELETE]) := by
  by_cases hne : pattern = []
  · subst hne
    simp [parsePattern]
  · rcases hs : splitOn 0x20 pattern with _ | ⟨a, _ | ⟨b, _ | ⟨c, t⟩⟩⟩
    · exact absurd hs (splitOn_ne_nil _ _)
    · simp [parsePattern, hne, hs]
    · by_cases hmem : a ∈ [GET, POST, PUT, PATCH, DELETE]
      · simp only [parsePattern, if_neg hne, hs, deleteUnusedMethods_eq, if_pos hmem]
        constructor
        · rintro ⟨msg, hmsg⟩
          simp at hmsg
        · rintro (h | h | ⟨method, path, h, hnot⟩)
          · exact absurd h hne
          · simp at h
          · simp only [List.cons.injEq, and_true] at h
            rw [← h.1] at hnot
            exact absurd hmem hnot
      · simp only [parsePattern, if_neg hne, hs, deleteUnusedMethods_eq, if_neg hmem]
        exact ⟨fun _ => Or.inr (Or.inr ⟨a, b, rfl, hmem⟩), fun _ => ⟨_, rfl⟩⟩
    · simp [parsePattern, hne, hs]

/-! ## Registration -/

/-- C4: `registerRoute` panics exactly when the path of the pattern already has a route
whose method set shares a method with the method set of the pattern (a map has no
repeated key, `pattern.methods.Nodup`); registering `GET /x` and then `POST /x`
succeeds with the merged method set, registering `GET /x` twice panics. -/
theorem registerRoute_panics_iff (s : HTTPServer) (pattern : Pattern) (handler : HTTPHandler)
    (hnd : pattern.methods.Nodup) :
    ((∃ msg, registerRoute s pattern handler = .error msg) ↔
      ∃ route, mapGet s.paths pattern.path = some route ∧
        ∃ m, m ∈ pattern.methods ∧ m ∈ route.methods) ∧
    (∀ h1 h2 : HTTPHandler, ∃ s1 s2,
      HandleFunc NewHTTPServer (bytes "GET /x") h1 = .ok s1 ∧
      HandleFunc s1 (bytes "POST /x") h2 = .ok s2 ∧
      (mapGet s2.paths (bytes "/x")).map (·.methods) = some [GET, POST]) ∧
    (∀ h1 h2 : HTTPHandler, ∃ s1 msg,
      HandleFunc NewHTTPServer (bytes "GET /x") h1 = .ok s1 ∧
      HandleFunc s1 (bytes "GET /x") h2 = .error msg) := by
  refine ⟨?_, fun h1 h2 => ⟨_, _, rfl, rfl, rfl⟩, fun h1 h2 => ⟨_, _, rfl, rfl⟩⟩
  unfold registerRoute
  cases hget : mapGet s.paths pattern.path with
  | none => simp
  | some existRoute =>
    simp only [Option.some.injEq, exists_eq_left']
    rw [← mergeMethods_error_iff pattern.methods existRoute.methods hnd]
    cases hmerge : mergeMethods pattern.methods existRoute.methods with
    | error msg => simp
    | ok merged => simp

theorem registerRoute_panics_iff_witness :
    [GET].Nodup ∧
    ((∃ msg, registerRoute serverGetX { path := bytes "/x", methods := [GET] } writesTwo =
        .error msg) ↔
      ∃ route, mapGet serverGetX.paths (bytes "/x") = some route ∧
        ∃ m, m ∈ [GET] ∧ m ∈ route.methods) :=
  ⟨by decide,
    (registerRoute_panics_iff serverGetX { path := bytes "/x", methods := [GET] } writesTwo
      (by decide)).1⟩

/-- C5: after a successful `registerRoute` with a pattern of path `p` and methods `M`,
the method set of `p` is `M` when `p` had no route and the union of the old set and
`M` otherwise; the route of every other path is unchanged; every (path, method) pair
allowed before the call is still allowed. -/
theorem registerRoute_ok (s s' : HTTPServer) (pattern : Pattern) (handler : HTTPHandler)
    (h : registerRoute s pattern handler = .ok s') :
    (mapGet s.paths pattern.path = none →
      ∃ route', mapGet s'.paths pattern.path = some route' ∧
        route'.methods = pattern.methods) ∧
    (∀ route, mapGet s.paths pattern.path = some route →
      ∃ route', mapGet s'.paths pattern.path = some route' ∧
        ∀ m, m ∈ route'.methods ↔ (m ∈ route.methods ∨ m ∈ pattern.methods)) ∧
    (∀ other, other ≠ pattern.path → mapGet s'.paths other = mapGet s.paths other) ∧
    (∀ path m route, mapGet s.paths path = some route → m ∈ route.methods →
      ∃ route', mapGet s'.paths path = some route' ∧ m ∈ route'.methods) := by
  unfold registerRoute at h
  cases hget : mapGet s.paths pattern.path with
  | none =>
    simp only [hget, Except.ok.injEq] at h
    subst h
    refine ⟨fun _ => ⟨_, mapGet_mapSet_same _ _ _, rfl⟩, fun route hr => by simp at hr,
      fun other ho => mapGet_mapSet_other _ _ _ _ ho, fun path m route hr hm => ?_⟩
    have hp : path ≠ pattern.path := by
      intro e
      rw [e, hget] at hr
      simp at hr
    exact ⟨route, by rw [mapGet_mapSet_other _ _ _ _ hp]; exact hr, hm⟩
  | some existRoute =>
    simp only [hget] at h
    cases hmerge : mergeMethods pattern.methods existRoute.methods with
    | error msg => simp [hmerge] at h
    | ok merged =>
      simp only [hmerge, Except.ok.injEq] at h
      subst h
      have hm := mergeMethods_ok _ _ _ hmerge
      refine ⟨fun hn => by simp at hn, fun route hr => ?_,
        fun other ho => mapGet_mapSet_other _ _ _ _ ho, fun path m route hr hmem => ?_⟩
      · simp only [Option.some.injEq] at hr
        subst hr
        exact ⟨_, mapGet_mapSet_same _ _ _, fun m => by simp [hm]⟩
      · by_cases hp : path = pattern.path
        · subst hp
          rw [hget] at hr
          simp only [Option.some.injEq] at hr
          subst hr
          exact ⟨_, mapGet_mapSet_same _ _ _, by simp [hm, hmem]⟩
        · exact ⟨route, by rw [mapGet_mapSet_other _ _ _ _ hp]; exact hr, hmem⟩

theorem registerRoute_ok_witness :
    registerRoute serverGetX { path := bytes "/x", methods := [POST] } writesTwo =
      .ok serverGetPostX ∧
    (∀ route, mapGet serverGetX.paths (bytes "/x") = some route →
      ∃ route', mapGet serverGetPostX.paths (bytes "/x") = some route' ∧
        ∀ m, m ∈ route'.methods ↔ (m ∈ route.methods ∨ m ∈ [POST])) :=
  ⟨rfl, (registerRoute_ok serverGetX serverGetPostX { path := bytes "/x", methods := [POST] }
    writesTwo rfl).2.1⟩

/-! ## Routing in `handleConn` -/

/-- C1 (evaluation of the code): after `HandleFunc("GET /x", writesOne)` and
`HandleFunc("POST /x", writesTwo)`, both successful, the request `POST /x` is handled
by one call of `writesOne` with a fresh response, and the connection gets what
`writesOne` wrote: the handler registered for `POST /x` is not the one invoked. -/
theorem handleConn_invokes_first_registered :
    (HandleFunc NewHTTPServer (bytes "GET /x") writesOne).bind
        (fun s => HandleFunc s (bytes "POST /x") writesTwo) = .ok serverGetPostX ∧
    (handleConn plainStdlib serverGetPostX (bytes "POST /x HTTP/1.1\r\n\r\n")).calls =
      [(writesOne, { Status := 200, Body := some [], Headers := some [] },
        { Method := POST, Header := [], URL := { Path := bytes "/x", RawQuery := [] },
          Body := .empty })] ∧
    (handleConn plainStdlib serverGetPostX (bytes "POST /x HTTP/1.1\r\n\r\n")).written =
      bytes "HTTP/1.1 200 OK\r\nContent-Length: 3\r\n\r\none" ∧
    writesOne ≠ writesTwo := by
  refine ⟨rfl, rfl, by decide, ?_⟩
  intro h
  have h2 := congrFun (congrFun h NewResponse)
    { Method := POST, Header := [], URL := { Path := bytes "/x", RawQuery := [] },
      Body := .empty }
  revert h2
  decide

/-- C2: when the URL path of the decoded request has a route and the request method,
as a byte string, is not in the method set of that route, `handleConn` calls no handler
and writes exactly the 405 status line followed by `Content-Length: 0`. -/
theorem handleConn_method_not_allowed (std : Stdlib) (s : HTTPServer) (conn : Bytes)
    (request : Request) (rest : Bytes) (route : Route)
    (hreq : readRequest std conn = .ok (request, rest))
    (hroute : mapGet s.paths request.URL.Path = some route)
    (hmethod : request.Method ∉ route.methods) :
    (handleConn std s conn).written =
      bytes "HTTP/1.1 405 Method Not Allowed\r\nContent-Length: 0" ∧
    (handleConn std s conn).calls = [] := by
  simp only [handleConn, hreq, hroute, hmethod, not_false_eq_true, if_true]
  exact ⟨by decide, trivial⟩

theorem handleConn_method_not_allowed_witness :
    readRequest plainStdlib (bytes "get /x HTTP/1.1\r\n\r\n") =
      .ok ({ Method := bytes "get", Header := [],
             URL := { Path := bytes "/x", RawQuery := [] }, Body := .empty }, []) ∧
    (handleConn plainStdlib serverGetX (bytes "get /x HTTP/1.1\r\n\r\n")).written =
      bytes "HTTP/1.1 405 Method Not Allowed\r\nContent-Length: 0" ∧
    (handleConn plainStdlib serverGetX (bytes "get /x HTTP/1.1\r\n\r\n")).calls = [] :=
  ⟨by decide,
    handleConn_method_not_allowed plainStdlib serverGetX (bytes "get /x HTTP/1.1\r\n\r\n")
      { Method := bytes "get", Header := [], URL := { Path := bytes "/x", RawQuery := [] },
        Body := .empty } [] { handler := writesOne, methods := [GET] }
      (by decide) rfl (by decide)⟩

/-- C3: when the URL path of the decoded request is not equal to any registered path,
whatever the method, `handleConn` calls no handler and writes exactly the 404 status
line followed by `Content-Length: 0`. -/
theorem handleConn_not_found (std : Stdlib) (s : HTTPServer) (conn : Bytes)
    (request : Request) (rest : Bytes)
    (hreq : readRequest std conn = .ok (request, rest))
    (hpath : ∀ entry ∈ s.paths, entry.1 ≠ request.URL.Path) :
    (handleConn std s conn).written = bytes "HTTP/1.1 404 Not Found\r\nContent-Length: 0" ∧
    (handleConn std s conn).calls = [] := by
  have hget := (mapGet_eq_none_iff s.paths request.URL.Path).2 hpath
  simp only [handleConn, hreq, hget]
  exact ⟨by decide, trivial⟩

theorem handleConn_not_found_witness :
    readRequest plainStdlib (bytes "GET /y HTTP/1.1\r\n\r\n") =
      .ok ({ Method := GET, Header := [],
             URL := { Path := bytes "/y", RawQuery := [] }, Body := .empty }, []) ∧
    (handleConn plainStdlib serverGetX (bytes "GET /y HTTP/1.1\r\n\r\n")).written =
      bytes "HTTP/1.1 404 Not Found\r\nContent-Length: 0" ∧
    (handleConn plainStdlib serverGetX (bytes "GET /y HTTP/1.1\r\n\r\n")).calls = [] :=
  ⟨by decide,
    handleConn_not_found plainStdlib serverGetX (bytes "GET /y HTTP/1.1\r\n\r\n")
      { Method := GET, Header := [], URL := { Path := bytes "/y", RawQuery := [] },
        Body := .empty } [] (by decide) (by decide)⟩

/-! ## Request decoder -/

/-- After a request line of three tokens whose target parses, `readRequest` is the
header loop followed by the body framing. -/
theorem readRequest_after_line (std : Stdlib) (reader line rest : Bytes)
    (method rawURL proto : Bytes) (url : URL)
    (hline : ReadString 0x0A reader = some (line, rest))
    (hs : splitOn 0x20 (TrimSpace line) = [method, rawURL, proto])
    (hurl : std.urlParse rawURL = some url) :
    readRequest std reader =
      (readHeaders (rest.length + 1) rest []).bind (fun hr =>
        (readBody hr.2 hr.1).map (fun body =>
          ({ Method := method, Header := hr.1, URL := url, Body := body }, hr.2))) := by
  unfold readRequest
  rw [hline]
  simp only [hs, hurl]
  cases hh : readHeaders (rest.length + 1) rest [] with
  | error e => rfl
  | ok hr =>
    obtain ⟨headers, r⟩ := hr
    simp only [Except.bind]
    cases hb : readBody r headers with
    | error e => rfl
    | ok body => rfl

/-- C8: when the first line of the stream is read, `readRequest` returns the
request-line error whenever the trimmed line does not split on single spaces into
exactly three tokens; when it splits into three tokens and `url.Parse` accepts the
second, decoding goes on with the headers and the body, which do not depend on the
third token, and every decoded request has the first token as `Method` and the parsed
second token as `URL`. -/
theorem readRequest_request_line (std : Stdlib) (reader line rest : Bytes)
    (hline : ReadString 0x0A reader = some (line, rest)) :
    ((splitOn 0x20 (TrimSpace line)).length ≠ 3 →
      readRequest std reader = .error .requestLineFormat) ∧
    (∀ (method rawURL proto : Bytes) (url : URL),
      splitOn 0x20 (TrimSpace line) = [method, rawURL, proto] →
      std.urlParse rawURL = some url →
      readRequest std reader =
        (readHeaders (rest.length + 1) rest []).bind (fun hr =>
          (readBody hr.2 hr.1).map (fun body =>
            ({ Method := method, Header := hr.1, URL := url, Body := body }, hr.2))) ∧
      ∀ request rest', readRequest std reader = .ok (request, rest') →
        request.Method = method ∧ request.URL = url) := by
  constructor
  · intro hlen
    unfold readRequest
    rw [hline]
    rcases hs : splitOn 0x20 (TrimSpace line) with _ | ⟨a, _ | ⟨b, _ | ⟨c, _ | ⟨d, t⟩⟩⟩⟩
    · simp only [hs]
    · simp only [hs]
    · simp only [hs]
    · rw [hs] at hlen
      simp at hlen
    · simp only [hs]
  · intro method rawURL proto url hs hurl
    have heq := readRequest_after_line std reader line rest method rawURL proto url hline hs hurl
    refine ⟨heq, ?_⟩
    intro request rest' hok
    rw [heq] at hok
    cases hh : readHeaders (rest.length + 1) rest [] with
    | error e => simp [hh, Except.bind] at hok
    | ok hr =>
      obtain ⟨headers, r⟩ := hr
      simp only [hh, Except.bind] at hok
      cases hb : readBody r headers with
      | error e => simp [hb, Except.map] at hok
      | ok body =>
        simp only [hb, Except.map, Except.ok.injEq, Prod.mk.injEq] at hok
        rw [← hok.1]
        exact ⟨rfl, rfl⟩

theorem readRequest_request_line_witness :
    ReadString 0x0A (bytes "GET /x HTTP/1.1\r\n\r\n") =
      some (bytes "GET /x HTTP/1.1\r\n", bytes "\r\n") ∧
    splitOn 0x20 (TrimSpace (bytes "GET /x HTTP/1.1\r\n")) =
      [GET, bytes "/x", bytes "HTTP/1.1"] ∧
    plainStdlib.urlParse (bytes "/x") = some { Path := bytes "/x", RawQuery := [] } ∧
    readRequest plainStdlib (bytes "GET /x HTTP/1.1\r\n\r\n") =
      .ok ({ Method := GET, Header := [], URL := { Path := bytes "/x", RawQuery := [] },
             Body := .empty }, []) ∧
    (∀ request rest',
      readRequest plainStdlib (bytes "GET /x HTTP/1.1\r\n\r\n") = .ok (request, rest') →
      request.Method = GET ∧ request.URL = { Path := bytes "/x", RawQuery := [] }) :=
  ⟨by decide, by decide, by decide, by decide,
    ((readRequest_request_line plainStdlib (bytes "GET /x HTTP/1.1\r\n\r\n")
      (bytes "GET /x HTTP/1.1\r\n") (bytes "\r\n") (by decide)).2 GET (bytes "/x")
      (bytes "HTTP/1.1") { Path := bytes "/x", RawQuery := [] } (by decide) (by decide)).2⟩

/-- C9: in a request whose header lines all contain a colon, ended by a blank line,
decoding can only fail on the `Content-Length` value, and the decoded `Header` maps
every key (the text before the first colon of a line, trimmed) to the values (the text
after that colon, trimmed) of the lines with that key, in the order of the lines, and
holds no other key; a line here is the header line without its surrounding white
space.  If such lines are followed by a non-blank line without a colon, `readRequest`
returns the header-format error. -/
theorem readRequest_headers (std : Stdlib) (requestLine : Bytes) (lines : List Bytes)
    (method rawURL proto : Bytes) (url : URL)
    (hreq : 0x0A ∉ requestLine)
    (hsplit : splitOn 0x20 (TrimSpace (requestLine ++ [0x0A])) = [method, rawURL, proto])
    (hurl : std.urlParse rawURL = some url)
    (hlines : ∀ l ∈ lines, 0x0A ∉ l ∧ 0x3A ∈ l) :
    (∀ blank rest : Bytes, 0x0A ∉ blank → TrimSpace (blank ++ [0x0A]) = [] →
      (readRequest std (requestStream requestLine lines blank rest) = .error .contentLength ∨
        ∃ request, readRequest std (requestStream requestLine lines blank rest) =
          .ok (request, rest)) ∧
      ∀ request rest', readRequest std (requestStream requestLine lines blank rest) =
          .ok (request, rest') →
        ∀ key, mapGet request.Header key =
          if headerValues (lines.map (fun l => TrimSpace (l ++ [0x0A]))) key = [] then none
          else some (headerValues (lines.map (fun l => TrimSpace (l ++ [0x0A]))) key)) ∧
    (∀ bad more : Bytes, 0x0A ∉ bad → 0x3A ∉ bad → TrimSpace (bad ++ [0x0A]) ≠ [] →
      readRequest std (requestStream requestLine lines bad more) =
        .error (.headerFormat (TrimSpace (bad ++ [0x0A])))) := by
  have hstart : ∀ last tail : Bytes, ∃ k,
      readRequest std (requestStream requestLine lines last tail) =
        (readHeaders (k + 1) (last ++ 0x0A :: tail)
          (collectHeaders [] (lines.map (fun l => TrimSpace (l ++ [0x0A]))))).bind (fun hr =>
          (readBody hr.2 hr.1).map (fun body =>
            ({ Method := method, Header := hr.1, URL := url, Body := body }, hr.2))) := by
    intro last tail
    have hline := ReadString_append 0x0A requestLine
      (headerBlock lines ++ (last ++ 0x0A :: tail)) hreq
    have hfuel := length_le_headerBlock lines (last ++ 0x0A :: tail)
    refine ⟨(headerBlock lines ++ (last ++ 0x0A :: tail)).length - lines.length, ?_⟩
    unfold requestStream
    rw [readRequest_after_line std _ _ _ method rawURL proto url hline hsplit hurl]
    have hsplitFuel : (headerBlock lines ++ (last ++ 0x0A :: tail)).length + 1 =
        lines.length +
          ((headerBlock lines ++ (last ++ 0x0A :: tail)).length - lines.length + 1) := by
      omega
    rw [hsplitFuel, readHeaders_block lines _ _ _ hlines]
  constructor
  · intro blank rest hnl hblank
    obtain ⟨k, hk⟩ := hstart blank rest
    have hloop : readHeaders (k + 1) (blank ++ 0x0A :: rest)
        (collectHeaders [] (lines.map (fun l => TrimSpace (l ++ [0x0A])))) =
        .ok (collectHeaders [] (lines.map (fun l => TrimSpace (l ++ [0x0A]))), rest) := by
      rw [readHeaders, ReadString_append _ _ _ hnl]
      simp only [hblank, if_true]
    rw [hk, hloop]
    simp only [Except.bind]
    rcases readBody_cases rest
      (collectHeaders [] (lines.map (fun l => TrimSpace (l ++ [0x0A])))) with hb | ⟨body, hb⟩
    · rw [hb]
      exact ⟨Or.inl rfl, fun request rest' h => by simp [Except.map] at h⟩
    · rw [hb]
      refine ⟨Or.inr ⟨_, rfl⟩, fun request rest' h key => ?_⟩
      simp only [Except.map, Except.ok.injEq, Prod.mk.injEq] at h
      rw [← h.1]
      simp only
      rw [mapGet_collectHeaders]
      simp [mapGet]
  · intro bad more hnl hcolon hne
    obtain ⟨k, hk⟩ := hstart bad more
    have hloop : readHeaders (k + 1) (bad ++ 0x0A :: more)
        (collectHeaders [] (lines.map (fun l => TrimSpace (l ++ [0x0A])))) =
        .error (.headerFormat (TrimSpace (bad ++ [0x0A]))) := by
      rw [readHeaders, ReadString_append _ _ _ hnl]
      have hidx : Index (TrimSpace (bad ++ [0x0A])) 0x3A = none := by
        rw [Index_eq_none_iff]
        intro hmem
        have := mem_of_mem_TrimSpace _ _ hmem
        simp at this
        exact hcolon this
      simp only [if_neg hne, hidx]
    rw [hk, hloop]
    rfl

theorem readRequest_headers_witness :
    0x0A ∉ bytes "GET /x HTTP/1.1\r" ∧
    splitOn 0x20 (TrimSpace (bytes "GET /x HTTP/1.1\r" ++ [0x0A])) =
      [GET, bytes "/x", bytes "HTTP/1.1"] ∧
    plainStdlib.urlParse (bytes "/x") = some { Path := bytes "/x", RawQuery := [] } ∧
    (∀ l ∈ [bytes "Host: a\r", bytes "Accept : x\r", bytes "Host:b\r"], 0x0A ∉ l ∧ 0x3A ∈ l) ∧
    readRequest plainStdlib
        (requestStream (bytes "GET /x HTTP/1.1\r")
          [bytes "Host: a\r", bytes "Accept : x\r", bytes "Host:b\r"] (bytes "\r")
          (bytes "tail")) =
      .ok ({ Method := GET,
             Header := [(bytes "Host", [bytes "a", bytes "b"]), (bytes "Accept", [bytes "x"])],
             URL := { Path := bytes "/x", RawQuery := [] }, Body := .empty }, bytes "tail") ∧
    (∀ request rest',
      readRequest plainStdlib
          (requestStream (bytes "GET /x HTTP/1.1\r")
            [bytes "Host: a\r", bytes "Accept : x\r", bytes "Host:b\r"] (bytes "\r")
            (bytes "tail")) = .ok (request, rest') →
      ∀ key, mapGet request.Header key =
        if headerValues
            ([bytes "Host: a\r", bytes "Accept : x\r", bytes "Host:b\r"].map
              (fun l => TrimSpace (l ++ [0x0A]))) key = [] then none
        else some (headerValues
            ([bytes "Host: a\r", bytes "Accept : x\r", bytes "Host:b\r"].map
              (fun l => TrimSpace (l ++ [0x0A]))) key)) :=
  ⟨by decide, by decide, by decide, by decide, by decide,
    ((readRequest_headers plainStdlib (bytes "GET /x HTTP/1.1\r")
      [bytes "Host: a\r", bytes "Accept : x\r", bytes "Host:b\r"] GET (bytes "/x")
      (bytes "HTTP/1.1") { Path := bytes "/x", RawQuery := [] }
      (by decide) (by decide) (by decide) (by decide)).1 (bytes "\r") (bytes "tail")
      (by decide) (by decide)).2⟩

/-- C10 (evaluation of the code): a request whose `Content-Length` value is `-5` is
decoded without error, with a body reader limited to -5 bytes, which reads as the
empty body; a request whose `Content-Length` value is `5abc` is decoded without error
with a body of 5 bytes.  Neither value is the decimal representation of a
non-negative integer. -/
theorem readRequest_accepts_malformed_content_length :
    readRequest plainStdlib (bytes "POST /x HTTP/1.1\r\nContent-Length: -5\r\n\r\nhello") =
      .ok ({ Method := POST, Header := [(bytes "Content-Length", [bytes "-5"])],
             URL := { Path := bytes "/x", RawQuery := [] },
             Body := .limit (bytes "hello") (-5) }, bytes "hello") ∧
    Body.readAll (.limit (bytes "hello") (-5)) = [] ∧
    readRequest plainStdlib (bytes "POST /x HTTP/1.1\r\nContent-Length: 5abc\r\n\r\nhello") =
      .ok ({ Method := POST, Header := [(bytes "Content-Length", [bytes "5abc"])],
             URL := { Path := bytes "/x", RawQuery := [] },
             Body := .limit (bytes "hello") 5 }, bytes "hello") ∧
    Body.readAll (.limit (bytes "hello") 5) = bytes "hello" := by
  refine ⟨by decide, by decide, by decide, by decide⟩

/-! ## Decimal numbers -/

/-- The digits written by `formatNatN`: a non-empty run of decimal digits whose value
is `n`, in front of `acc`. -/
theorem formatNatN_spec (fuel n : Nat) (acc : Bytes) (h : n < fuel) :
    ∃ ds, formatNatN fuel n acc = ds ++ acc ∧ ds ≠ [] ∧
      (∀ d ∈ ds, 0x30 ≤ d ∧ d ≤ 0x39) ∧ decimalValue ds = n := by
  induction fuel generalizing n acc with
  | zero => omega
  | succ fuel ih =>
    unfold formatNatN
    by_cases h10 : n < 10
    · rw [if_pos h10]
      refine ⟨[0x30 + n], rfl, by simp, ?_, ?_⟩
      · intro d hd
        simp only [List.mem_singleton] at hd
        omega
      · simp [decimalValue]
    · rw [if_neg h10]
      obtain ⟨ds, h1, _, h3, h4⟩ := ih (n / 10) ((0x30 + n % 10) :: acc) (by omega)
      refine ⟨ds ++ [0x30 + n % 10], by rw [h1]; simp, by simp, ?_, ?_⟩
      · intro d hd
        rcases List.mem_append.1 hd with hd | hd
        · exact h3 d hd
        · simp only [List.mem_singleton] at hd
          omega
      · unfold decimalValue at h4 ⊢
        rw [List.foldl_append, h4]
        simp only [List.foldl_cons, List.foldl_nil]
        omega

/-- The text written by `fmt.Sprintf("%d", n)` is the decimal representation of `n`. -/
theorem formatNat_spec (n : Nat) :
    formatNat n ≠ [] ∧ (∀ d ∈ formatNat n, 0x30 ≤ d ∧ d ≤ 0x39) ∧
      decimalValue (formatNat n) = n := by
  obtain ⟨ds, h1, h2, h3, h4⟩ := formatNatN_spec (n + 1) n [] (by omega)
  unfold formatNat
  rw [h1, List.append_nil]
  exact ⟨h2, h3, h4⟩

theorem spaceWidth_digit (d : Nat) (t : Bytes) (hd : 0x30 ≤ d ∧ d ≤ 0x39) :
    spaceWidth (d :: t) = 0 := by
  rcases t with _ | ⟨b1, _ | ⟨b2, t⟩⟩ <;> simp only [spaceWidth] <;> (try split_ifs) <;>
    first | rfl | omega

/-- `fmt.Sscanf` with `%d` reads a decimal representation back, when the number fits
an `int64`. -/
theorem Sscanf_d_formatNat (n : Nat) (h : n < 2 ^ 63) : Sscanf_d (formatNat n) = some (n : Int) := by
  obtain ⟨hne, hdig, hval⟩ := formatNat_spec n
  rcases hs : formatNat n with _ | ⟨d, t⟩
  · exact absurd hs hne
  · rw [hs] at hdig hval
    have hd := hdig d (List.mem_cons_self _ _)
    have hskip : skipSpaceN (d :: t).length (d :: t) = some (d :: t) := by
      simp only [List.length_cons, skipSpaceN, List.head?_cons, Option.some.injEq]
      rw [if_neg (by omega), if_pos (spaceWidth_digit d t hd)]
    have htake : (d :: t).takeWhile (fun c => decide (0x30 ≤ c ∧ c ≤ 0x39)) = d :: t := by
      rw [List.takeWhile_eq_self_iff]
      intro x hx
      simpa using hdig x hx
    unfold Sscanf_d
    rw [hskip]
    simp only [List.head?_cons, Option.some.injEq]
    have h1 : ¬ d = 0x2D := by omega
    have h2 : ¬ d = 0x2B := by omega
    simp only [h1, h2, or_self, if_false, htake, hval]
    simp only [decide_False, Bool.false_eq_true, if_false, reduceCtorEq, if_false]
    have hlt : n < 9223372036854775808 := by
      have : (2 : Nat) ^ 63 = 9223372036854775808 := by norm_num
      omega
    simp only [Int.reducePow, Int.reduceNeg, Nat.cast_lt_ofNat, hlt, and_true,
      ite_eq_left_iff, not_le, reduceCtorEq, imp_false, not_lt]
    omega

/-! ## More on the request decoder -/

/-- Decoding a request made of a request line, header lines that all contain a colon
and a blank line: the headers are the lines collected, the body framing is chosen on
them, and the stream is read up to the blank line. -/
theorem readRequest_requestStream (std : Stdlib) (requestLine : Bytes) (lines : List Bytes)
    (blank rest method rawURL proto : Bytes) (url : URL)
    (hreq : 0x0A ∉ requestLine)
    (hsplit : splitOn 0x20 (TrimSpace (requestLine ++ [0x0A])) = [method, rawURL, proto])
    (hurl : std.urlParse rawURL = some url)
    (hlines : ∀ l ∈ lines, 0x0A ∉ l ∧ 0x3A ∈ l)
    (hnl : 0x0A ∉ blank) (hblank : TrimSpace (blank ++ [0x0A]) = []) :
    readRequest std (requestStream requestLine lines blank rest) =
      (readBody rest (collectHeaders [] (lines.map (fun l => TrimSpace (l ++ [0x0A]))))).map
        (fun body =>
          ({ Method := method,
             Header := collectHeaders [] (lines.map (fun l => TrimSpace (l ++ [0x0A]))),
             URL := url, Body := body }, rest)) := by
  have hline := ReadString_append 0x0A requestLine
    (headerBlock lines ++ (blank ++ 0x0A :: rest)) hreq
  have hfuel := length_le_headerBlock lines (blank ++ 0x0A :: rest)
  have hsplitFuel : (headerBlock lines ++ (blank ++ 0x0A :: rest)).length + 1 =
      lines.length +
        ((headerBlock lines ++ (blank ++ 0x0A :: rest)).length - lines.length + 1) := by
    omega
  unfold requestStream
  rw [readRequest_after_line std _ _ _ method rawURL proto url hline hsplit hurl, hsplitFuel,
    readHeaders_block lines _ _ _ hlines, readHeaders, ReadString_append _ _ _ hnl]
  simp only [hblank, if_true]
  rfl

/-- The last value of a key in the collected headers is the value of the last line
with that key. -/
theorem lastValue_collectHeaders (lines : List Bytes) (key : Bytes) :
    (mapGet (collectHeaders [] lines) key).bind List.getLast? =
      (headerValues lines key).getLast? := by
  rw [mapGet_collectHeaders]
  by_cases h : headerValues lines key = []
  · rw [if_pos h, h]
    rfl
  · rw [if_neg h]
    simp [mapGet]

/-- A decoded request carries the body that `readBody` chose on its headers and on the
stream left after the blank line. -/
theorem readRequest_ok_readBody (std : Stdlib) (reader : Bytes) (request : Request)
    (rest : Bytes) (h : readRequest std reader = .ok (request, rest)) :
    readBody rest request.Header = .ok request.Body := by
  unfold readRequest at h
  cases h1 : ReadString 0x0A reader with
  | none => simp [h1] at h
  | some p =>
    obtain ⟨line, r⟩ := p
    simp only [h1] at h
    rcases hs : splitOn 0x20 (TrimSpace line) with _ | ⟨a, _ | ⟨b, _ | ⟨c, _ | ⟨d, t⟩⟩⟩⟩
    · simp [hs] at h
    · simp [hs] at h
    · simp [hs] at h
    · simp only [hs] at h
      cases hu : std.urlParse b with
      | none => simp [hu] at h
      | some url =>
        simp only [hu] at h
        cases hh : readHeaders (r.length + 1) r [] with
        | error e => simp [hh] at h
        | ok hr =>
          obtain ⟨headers, r2⟩ := hr
          simp only [hh] at h
          cases hb : readBody r2 headers with
          | error e => simp [hb] at h
          | ok body =>
            simp only [hb, Except.ok.injEq, Prod.mk.injEq] at h
            obtain ⟨h3, h4⟩ := h
            subst h3 h4
            exact hb
    · simp [hs] at h

/-- The header loop never stores an empty list of values. -/
theorem readHeaders_values_ne_nil (fuel : Nat) (reader : Bytes) (headers result : Header)
    (rest : Bytes) (hinv : ∀ key values, mapGet headers key = some values → values ≠ [])
    (h : readHeaders fuel reader headers = .ok (result, rest)) :
    ∀ key values, mapGet result key = some values → values ≠ [] := by
  induction fuel generalizing reader headers with
  | zero => simp [readHeaders] at h
  | succ fuel ih =>
    unfold readHeaders at h
    cases h1 : ReadString 0x0A reader with
    | none => simp [h1] at h
    | some p =>
      obtain ⟨line, r⟩ := p
      simp only [h1] at h
      by_cases hl : TrimSpace line = []
      · simp only [hl, if_true, Except.ok.injEq, Prod.mk.injEq] at h
        rw [← h.1]
        exact hinv
      · simp only [if_neg hl] at h
        cases hi : Index (TrimSpace line) 0x3A with
        | none => simp [hi] at h
        | some i =>
          simp only [hi] at h
          refine ih _ _ ?_ h
          intro key values hget
          by_cases hk : key = TrimSpace ((TrimSpace line).take i)
          · subst hk
            rw [mapGet_mapSet_same] at hget
            simp only [Option.some.injEq] at hget
            rw [← hget]
            simp
          · rw [mapGet_mapSet_other _ _ _ _ hk] at hget
            exact hinv key values hget

/-- In a decoded request every header key has at least one value. -/
theorem readRequest_values_ne_nil (std : Stdlib) (reader : Bytes) (request : Request)
    (rest : Bytes) (h : readRequest std reader = .ok (request, rest)) :
    ∀ key values, mapGet request.Header key = some values → values ≠ [] := by
  unfold readRequest at h
  cases h1 : ReadString 0x0A reader with
  | none => simp [h1] at h
  | some p =>
    obtain ⟨line, r⟩ := p
    simp only [h1] at h
    rcases hs : splitOn 0x20 (TrimSpace line) with _ | ⟨a, _ | ⟨b, _ | ⟨c, _ | ⟨d, t⟩⟩⟩⟩
    · simp [hs] at h
    · simp [hs] at h
    · simp [hs] at h
    · simp only [hs] at h
      cases hu : std.urlParse b with
      | none => simp [hu] at h
      | some url =>
        simp only [hu] at h
        cases hh : readHeaders (r.length + 1) r [] with
        | error e => simp [hh] at h
        | ok hr =>
          obtain ⟨headers, r2⟩ := hr
          simp only [hh] at h
          cases hb : readBody r2 headers with
          | error e => simp [hb] at h
          | ok body =>
            simp only [hb, Except.ok.injEq, Prod.mk.injEq] at h
            obtain ⟨h3, h4⟩ := h
            subst h3 h4
            exact readHeaders_values_ne_nil _ _ _ _ _ (by simp [mapGet]) hh
    · simp [hs] at h

theorem headerValues_eq_nil (lines : List Bytes) (key : Bytes)
    (h : ∀ t ∈ lines, headerKey t ≠ key) : headerValues lines key = [] := by
  unfold headerValues
  rw [List.map_eq_nil_iff, List.filter_eq_nil_iff]
  intro t ht
  simpa using h t ht

/-- C11: in a well-formed request whose last `Content-Length` value is the decimal
representation of `n` (a length that fits the `int64` it is scanned into), with at
least `n` bytes after the blank line, the request is decoded, reading its body to the
end yields exactly the first `n` bytes after the blank line, and the bytes that follow
them stay unread in the stream. -/
theorem readRequest_content_length_body (std : Stdlib) (requestLine : Bytes)
    (lines : List Bytes) (blank rest method rawURL proto : Bytes) (url : URL) (n : Nat)
    (hreq : 0x0A ∉ requestLine)
    (hsplit : splitOn 0x20 (TrimSpace (requestLine ++ [0x0A])) = [method, rawURL, proto])
    (hurl : std.urlParse rawURL = some url)
    (hlines : ∀ l ∈ lines, 0x0A ∉ l ∧ 0x3A ∈ l)
    (hnl : 0x0A ∉ blank) (hblank : TrimSpace (blank ++ [0x0A]) = [])
    (hcl : (headerValues (lines.map (fun l => TrimSpace (l ++ [0x0A])))
      (bytes "Content-Length")).getLast? = some (formatNat n))
    (hfit : n < 2 ^ 63) (hlen : n ≤ rest.length) :
    ∃ request, readRequest std (requestStream requestLine lines blank rest) =
        .ok (request, rest) ∧
      request.Body.readAll = rest.take n ∧
      request.Body.readAll.length = n ∧
      request.Body.unread rest = rest.drop n := by
  have hbody : readBody rest (collectHeaders [] (lines.map (fun l => TrimSpace (l ++ [0x0A])))) =
      .ok (.limit rest (n : Int)) := by
    unfold readBody
    rw [lastValue_collectHeaders, hcl]
    simp only [Sscanf_d_formatNat n hfit]
  rw [readRequest_requestStream std requestLine lines blank rest method rawURL proto url hreq
    hsplit hurl hlines hnl hblank, hbody]
  refine ⟨_, rfl, ?_, ?_, ?_⟩
  · simp only [Body.readAll]
    by_cases h0 : n = 0
    · subst h0
      simp
    · have : ¬ ((n : Int) ≤ 0) := by omega
      rw [if_neg this]
      simp
  · simp only [Body.readAll]
    by_cases h0 : n = 0
    · subst h0
      simp
    · have : ¬ ((n : Int) ≤ 0) := by omega
      rw [if_neg this]
      simp [hlen]
  · simp only [Body.unread]
    by_cases h0 : n = 0
    · subst h0
      simp
    · have : ¬ ((n : Int) ≤ 0) := by omega
      rw [if_neg this]
      simp

theorem readRequest_content_length_body_witness :
    0x0A ∉ bytes "POST /x HTTP/1.1\r" ∧
    splitOn 0x20 (TrimSpace (bytes "POST /x HTTP/1.1\r" ++ [0x0A])) =
      [POST, bytes "/x", bytes "HTTP/1.1"] ∧
    plainStdlib.urlParse (bytes "/x") = some { Path := bytes "/x", RawQuery := [] } ∧
    (∀ l ∈ [bytes "Host: a\r", bytes "Content-Length: 5\r"], 0x0A ∉ l ∧ 0x3A ∈ l) ∧
    0x0A ∉ bytes "\r" ∧ TrimSpace (bytes "\r" ++ [0x0A]) = [] ∧
    (headerValues ([bytes "Host: a\r", bytes "Content-Length: 5\r"].map
      (fun l => TrimSpace (l ++ [0x0A]))) (bytes "Content-Length")).getLast? =
        some (formatNat 5) ∧
    5 < 2 ^ 63 ∧ 5 ≤ (bytes "helloEXTRA").length ∧
    requestStream (bytes "POST /x HTTP/1.1\r") [bytes "Host: a\r", bytes "Content-Length: 5\r"]
        (bytes "\r") (bytes "helloEXTRA") =
      bytes "POST /x HTTP/1.1\r\nHost: a\r\nContent-Length: 5\r\n\r\nhelloEXTRA" ∧
    List.take 5 (bytes "helloEXTRA") = bytes "hello" ∧
    List.drop 5 (bytes "helloEXTRA") = bytes "EXTRA" ∧
    ∃ request,
      readRequest plainStdlib
          (requestStream (bytes "POST /x HTTP/1.1\r")
            [bytes "Host: a\r", bytes "Content-Length: 5\r"] (bytes "\r")
            (bytes "helloEXTRA")) = .ok (request, bytes "helloEXTRA") ∧
      request.Body.readAll = List.take 5 (bytes "helloEXTRA") ∧
      request.Body.readAll.length = 5 ∧
      request.Body.unread (bytes "helloEXTRA") = List.drop 5 (bytes "helloEXTRA") :=
  ⟨by decide, by decide, by decide, by decide, by decide, by decide, by decide, by decide,
    by decide, by decide, by decide, by decide,
    readRequest_content_length_body plainStdlib (bytes "POST /x HTTP/1.1\r")
      [bytes "Host: a\r", bytes "Content-Length: 5\r"] (bytes "\r") (bytes "helloEXTRA") POST
      (bytes "/x") (bytes "HTTP/1.1") { Path := bytes "/x", RawQuery := [] } 5
      (by decide) (by decide) (by decide) (by decide) (by decide) (by decide) (by decide)
      (by decide) (by decide)⟩

/-- C12: in every decoded request the body framing follows this priority: when the
headers have a `Content-Length` key, the body is the stream after the blank line
limited by the last value of that key, whatever `Transfer-Encoding` says; otherwise,
when they have a `Transfer-Encoding` key, the body is that whole stream, byte for
byte, if the lower-cased last value is `chunked`, and empty if it is not; otherwise
the body is empty. -/
theorem readRequest_body_framing (std : Stdlib) (reader : Bytes) (request : Request)
    (rest : Bytes) (h : readRequest std reader = .ok (request, rest)) :
    (∀ values, mapGet request.Header (bytes "Content-Length") = some values →
      ∃ last length, values.getLast? = some last ∧ Sscanf_d last = some length ∧
        request.Body = .limit rest length) ∧
    (mapGet request.Header (bytes "Content-Length") = none →
      ∀ values, mapGet request.Header (bytes "Transfer-Encoding") = some values →
        ∃ last, values.getLast? = some last ∧
          (ToLower last = bytes "chunked" →
            request.Body = .raw rest ∧ request.Body.readAll = rest) ∧
          (ToLower last ≠ bytes "chunked" → request.Body = .empty)) ∧
    (mapGet request.Header (bytes "Content-Length") = none →
      mapGet request.Header (bytes "Transfer-Encoding") = none →
      request.Body = .empty) := by
  have hbody := readRequest_ok_readBody std reader request rest h
  have hne := readRequest_values_ne_nil std reader request rest h
  have hlastOf : ∀ key values, mapGet request.Header key = some values →
      ∃ last, values.getLast? = some last ∧
        (mapGet request.Header key).bind List.getLast? = some last := by
    intro key values hv
    cases hl : values.getLast? with
    | none => exact absurd (List.getLast?_eq_none_iff.1 hl) (hne _ _ hv)
    | some last => exact ⟨last, rfl, by rw [hv]; exact hl⟩
  unfold readBody at hbody
  refine ⟨?_, ?_, ?_⟩
  · intro values hv
    obtain ⟨last, hlast, hbind⟩ := hlastOf _ _ hv
    rw [hbind] at hbody
    dsimp only at hbody
    cases hs : Sscanf_d last with
    | none =>
      rw [hs] at hbody
      simp at hbody
    | some length =>
      rw [hs] at hbody
      simp only [Except.ok.injEq] at hbody
      exact ⟨last, length, hlast, hs, hbody.symm⟩
  · intro hcl values hv
    obtain ⟨last, hlast, hbind⟩ := hlastOf _ _ hv
    have hnone : (mapGet request.Header (bytes "Content-Length")).bind List.getLast? = none := by
      rw [hcl]
      rfl
    rw [hnone, hbind] at hbody
    dsimp only at hbody
    refine ⟨last, hlast, ?_, ?_⟩
    · intro hch
      simp only [hch, if_true, Except.ok.injEq] at hbody
      rw [← hbody]
      exact ⟨rfl, rfl⟩
    · intro hch
      simp only [if_neg hch, Except.ok.injEq] at hbody
      exact hbody.symm
  · intro hcl hte
    have hnone : (mapGet request.Header (bytes "Content-Length")).bind List.getLast? = none := by
      rw [hcl]
      rfl
    have hnone2 : (mapGet request.Header (bytes "Transfer-Encoding")).bind List.getLast? =
        none := by
      rw [hte]
      rfl
    rw [hnone, hnone2] at hbody
    dsimp only at hbody
    simp only [Except.ok.injEq] at hbody
    exact hbody.symm

theorem readRequest_body_framing_witness :
    readRequest plainStdlib
        (bytes "POST /x HTTP/1.1\r\nTransfer-Encoding: chunked\r\nContent-Length: 2\r\n\r\nhello") =
      .ok ({ Method := POST,
             Header := [(bytes "Transfer-Encoding", [bytes "chunked"]),
               (bytes "Content-Length", [bytes "2"])],
             URL := { Path := bytes "/x", RawQuery := [] },
             Body := .limit (bytes "hello") 2 }, bytes "hello") ∧
    (∀ values,
      mapGet [(bytes "Transfer-Encoding", [bytes "chunked"]), (bytes "Content-Length", [bytes "2"])]
          (bytes "Content-Length") = some values →
      ∃ last length, values.getLast? = some last ∧ Sscanf_d last = some length ∧
        Body.limit (bytes "hello") 2 = .limit (bytes "hello") length) :=
  ⟨by decide,
    (readRequest_body_framing plainStdlib
      (bytes "POST /x HTTP/1.1\r\nTransfer-Encoding: chunked\r\nContent-Length: 2\r\n\r\nhello")
      { Method := POST,
        Header := [(bytes "Transfer-Encoding", [bytes "chunked"]),
          (bytes "Content-Length", [bytes "2"])],
        URL := { Path := bytes "/x", RawQuery := [] },
        Body := .limit (bytes "hello") 2 } (bytes "hello") (by decide)).1⟩

/-- C20: the decoder keeps header keys as written and looks for the body framing
only under the keys spelled exactly `Content-Length` and `Transfer-Encoding`: when no
header line of a well-formed request has one of these two keys, byte for byte, the
request is decoded with every key as written, its body is empty, and all the bytes
after the blank line stay unread in the stream; so for `content-length: 5`. -/
theorem readRequest_framing_keys_exact (std : Stdlib) (requestLine : Bytes)
    (lines : List Bytes) (blank rest method rawURL proto : Bytes) (url : URL)
    (hreq : 0x0A ∉ requestLine)
    (hsplit : splitOn 0x20 (TrimSpace (requestLine ++ [0x0A])) = [method, rawURL, proto])
    (hurl : std.urlParse rawURL = some url)
    (hlines : ∀ l ∈ lines, 0x0A ∉ l ∧ 0x3A ∈ l)
    (hnl : 0x0A ∉ blank) (hblank : TrimSpace (blank ++ [0x0A]) = [])
    (hcl : ∀ l ∈ lines, headerKey (TrimSpace (l ++ [0x0A])) ≠ bytes "Content-Length")
    (hte : ∀ l ∈ lines, headerKey (TrimSpace (l ++ [0x0A])) ≠ bytes "Transfer-Encoding") :
    (∃ request, readRequest std (requestStream requestLine lines blank rest) =
        .ok (request, rest) ∧
      request.Body = .empty ∧ request.Body.readAll = [] ∧ request.Body.unread rest = rest ∧
      ∀ key, mapGet request.Header key =
        if headerValues (lines.map (fun l => TrimSpace (l ++ [0x0A]))) key = [] then none
        else some (headerValues (lines.map (fun l => TrimSpace (l ++ [0x0A]))) key)) ∧
    readRequest plainStdlib (bytes "POST /x HTTP/1.1\r\ncontent-length: 5\r\n\r\nhello") =
      .ok ({ Method := POST, Header := [(bytes "content-length", [bytes "5"])],
             URL := { Path := bytes "/x", RawQuery := [] }, Body := .empty }, bytes "hello") := by
  refine ⟨?_, by decide⟩
  have hnone : ∀ key, (∀ l ∈ lines, headerKey (TrimSpace (l ++ [0x0A])) ≠ key) →
      (mapGet (collectHeaders [] (lines.map (fun l => TrimSpace (l ++ [0x0A])))) key).bind
        List.getLast? = none := by
    intro key hkey
    rw [lastValue_collectHeaders, headerValues_eq_nil]
    · rfl
    · intro t ht
      obtain ⟨l, hl, rfl⟩ := List.mem_map.1 ht
      exact hkey l hl
  have hbody : readBody rest (collectHeaders [] (lines.map (fun l => TrimSpace (l ++ [0x0A])))) =
      .ok .empty := by
    unfold readBody
    rw [hnone _ hcl, hnone _ hte]
  rw [readRequest_requestStream std requestLine lines blank rest method rawURL proto url hreq
    hsplit hurl hlines hnl hblank, hbody]
  refine ⟨_, rfl, rfl, rfl, rfl, fun key => ?_⟩
  simp only
  rw [mapGet_collectHeaders]
  simp [mapGet]

theorem readRequest_framing_keys_exact_witness :
    0x0A ∉ bytes "POST /x HTTP/1.1\r" ∧
    splitOn 0x20 (TrimSpace (bytes "POST /x HTTP/1.1\r" ++ [0x0A])) =
      [POST, bytes "/x", bytes "HTTP/1.1"] ∧
    plainStdlib.urlParse (bytes "/x") = some { Path := bytes "/x", RawQuery := [] } ∧
    (∀ l ∈ [bytes "content-length: 5\r", bytes "TRANSFER-ENCODING: chunked\r"],
      0x0A ∉ l ∧ 0x3A ∈ l) ∧
    0x0A ∉ bytes "\r" ∧ TrimSpace (bytes "\r" ++ [0x0A]) = [] ∧
    (∀ l ∈ [bytes "content-length: 5\r", bytes "TRANSFER-ENCODING: chunked\r"],
      headerKey (TrimSpace (l ++ [0x0A])) ≠ bytes "Content-Length") ∧
    (∀ l ∈ [bytes "content-length: 5\r", bytes "TRANSFER-ENCODING: chunked\r"],
      headerKey (TrimSpace (l ++ [0x0A])) ≠ bytes "Transfer-Encoding") ∧
    readRequest plainStdlib
        (requestStream (bytes "POST /x HTTP/1.1\r")
          [bytes "content-length: 5\r", bytes "TRANSFER-ENCODING: chunked\r"] (bytes "\r")
          (bytes "hello")) =
      .ok ({ Method := POST,
             Header := [(bytes "content-length", [bytes "5"]),
               (bytes "TRANSFER-ENCODING", [bytes "chunked"])],
             URL := { Path := bytes "/x", RawQuery := [] }, Body := .empty }, bytes "hello") ∧
    ∃ request,
      readRequest plainStdlib
          (requestStream (bytes "POST /x HTTP/1.1\r")
            [bytes "content-length: 5\r", bytes "TRANSFER-ENCODING: chunked\r"] (bytes "\r")
            (bytes "hello")) = .ok (request, bytes "hello") ∧
      request.Body = .empty ∧ request.Body.readAll = [] ∧
      request.Body.unread (bytes "hello") = bytes "hello" ∧
      ∀ key, mapGet request.Header key =
        if headerValues ([bytes "content-length: 5\r", bytes "TRANSFER-ENCODING: chunked\r"].map
            (fun l => TrimSpace (l ++ [0x0A]))) key = [] then none
        else some (headerValues
          ([bytes "content-length: 5\r", bytes "TRANSFER-ENCODING: chunked\r"].map
            (fun l => TrimSpace (l ++ [0x0A]))) key) :=
  ⟨by decide, by decide, by decide, by decide, by decide, by decide, by decide, by decide,
    by decide,
    (readRequest_framing_keys_exact plainStdlib (bytes "POST /x HTTP/1.1\r")
      [bytes "content-length: 5\r", bytes "TRANSFER-ENCODING: chunked\r"] (bytes "\r")
      (bytes "hello") POST (bytes "/x") (bytes "HTTP/1.1")
      { Path := bytes "/x", RawQuery := [] }
      (by decide) (by decide) (by decide) (by decide) (by decide) (by decide) (by decide)
      (by decide)).1⟩

/-! ## The connection handler -/

/-- C16: when `readRequest` returns a decode error, `handleConn` writes no byte to the
connection and calls no handler; a malformed request line, a request target that
`url.Parse` refuses, a header line without a colon, a `Content-Length` that does not
scan and a stream that ends before the blank line are such errors. -/
theorem handleConn_decode_error (std : Stdlib) (s : HTTPServer) (conn : Bytes)
    (e : DecodeError) (h : readRequest std conn = .error e) :
    ((handleConn std s conn).written = [] ∧ (handleConn std s conn).calls = []) ∧
    readRequest plainStdlib (bytes "GET /x\r\n\r\n") = .error .requestLineFormat ∧
    readRequest plainStdlib (bytes "GET /%zz HTTP/1.1\r\n\r\n") = .error .urlParse ∧
    readRequest plainStdlib (bytes "GET /x HTTP/1.1\r\nHost\r\n\r\n") =
      .error (.headerFormat (bytes "Host")) ∧
    readRequest plainStdlib (bytes "GET /x HTTP/1.1\r\nContent-Length: abc\r\n\r\n") =
      .error .contentLength ∧
    readRequest plainStdlib (bytes "GET /x HTTP/1.1\r\nHost: a\r\n") = .error .headerRead ∧
    readRequest plainStdlib (bytes "GET /x HTTP/1.1") = .error .requestLineRead := by
  refine ⟨?_, by decide, by decide, by decide, by decide, by decide, by decide⟩
  simp only [handleConn, h]
  exact ⟨trivial, trivial⟩

theorem handleConn_decode_error_witness :
    readRequest plainStdlib (bytes "GET /x HTTP/1.1\r\nContent-Length: abc\r\n\r\n") =
      .error .contentLength ∧
    (handleConn plainStdlib serverGetX
      (bytes "GET /x HTTP/1.1\r\nContent-Length: abc\r\n\r\n")).written = [] ∧
    (handleConn plainStdlib serverGetX
      (bytes "GET /x HTTP/1.1\r\nContent-Length: abc\r\n\r\n")).calls = [] :=
  ⟨by decide,
    (handleConn_decode_error plainStdlib serverGetX
      (bytes "GET /x HTTP/1.1\r\nContent-Length: abc\r\n\r\n") .contentLength (by decide)).1⟩

/-- The header lines written by `handleConn` are the lines of the pairs of the map. -/
theorem headerLines_eq (headers : Header) :
    headerLines headers = (headerPairs headers).flatMap headerLine := by
  induction headers with
  | nil => rfl
  | cons kv t ih =>
    obtain ⟨key, values⟩ := kv
    have hhead : (values.flatMap fun value => key ++ bytes ": " ++ value ++ bytes "\r\n") =
        (values.map fun value => (key, value)).flatMap headerLine := by
      induction values with
      | nil => rfl
      | cons v vs ihv =>
        simp only [List.flatMap_cons, List.map_cons, ihv]
        rfl
    unfold headerLines at ih ⊢
    simp only [headerPairs, List.flatMap_cons, List.flatMap_append, ih, hhead]

/-- Whatever the handler does, a routed request is handled by one call of the handler
of the route, with a fresh response and the decoded request. -/
theorem handleConn_calls (std : Stdlib) (s : HTTPServer) (conn : Bytes) (request : Request)
    (rest : Bytes) (route : Route)
    (hreq : readRequest std conn = .ok (request, rest))
    (hroute : mapGet s.paths request.URL.Path = some route)
    (hmethod : request.Method ∈ route.methods) :
    (handleConn std s conn).calls = [(route.handler, NewResponse, request)] := by
  simp only [handleConn, hreq, hroute, hmethod, not_true_eq_false, if_false]
  cases hh : route.handler NewResponse request with
  | error msg => rfl
  | ok response =>
    rcases hb : response.Body with _ | body <;> rcases hd : response.Headers with _ | headers <;>
      simp only [hb, hd]

/-- The bytes written for a routed request whose handler returns: status line, header
lines in the order of `range`, blank line, body. -/
theorem handleConn_written_ok (std : Stdlib) (s : HTTPServer) (conn : Bytes)
    (request : Request) (rest : Bytes) (route : Route) (response : Response)
    (body : Bytes) (headers : Header)
    (hreq : readRequest std conn = .ok (request, rest))
    (hroute : mapGet s.paths request.URL.Path = some route)
    (hmethod : request.Method ∈ route.methods)
    (hh : route.handler NewResponse request = .ok response)
    (hb : response.Body = some body) (hd : response.Headers = some headers) :
    (handleConn std s conn).written =
      statusLine response.Status ++
        (headerPairs (std.rangeHeaders
          (Header.Add headers (bytes "Content-Length") (formatNat body.length)))).flatMap
          headerLine ++ bytes "\r\n" ++ body := by
  simp only [handleConn, hreq, hroute, hmethod, not_true_eq_false, if_false, hh, hb, hd,
    headerLines_eq]
  rfl

/-- The bytes written for a routed request whose handler panics: the response of the
deferred `recover` and nothing else. -/
theorem handleConn_written_panic (std : Stdlib) (s : HTTPServer) (conn : Bytes)
    (request : Request) (rest : Bytes) (route : Route) (msg : Bytes)
    (hreq : readRequest std conn = .ok (request, rest))
    (hroute : mapGet s.paths request.URL.Path = some route)
    (hmethod : request.Method ∈ route.methods)
    (hh : route.handler NewResponse request = .error msg) :
    (handleConn std s conn).written =
      bytes "HTTP/1.1 500 Internal Server Error\r\nContent-Length: 0" := by
  simp only [handleConn, hreq, hroute, hmethod, not_true_eq_false, if_false, hh]
  decide

theorem Header_Add_nil (value : Bytes) :
    Header.Add [] (bytes "Content-Length") value = [(bytes "Content-Length", [value])] := by
  have hc : CanonicalMIMEHeaderKey (bytes "Content-Length") = bytes "Content-Length" := by
    decide
  simp [Header.Add, hc, mapSet, mapGet]

/-- C13: when a request is routed to a handler that only writes `b` to the response,
the bytes written to the connection are `HTTP/1.1 200 OK\r\nContent-Length: `, the
decimal representation of the length of `b`, `\r\n\r\n` and `b`; `GET /` handled by
writing `hello world\n` gives `Content-Length: 12`, and the body `ok` gives
`Content-Length: 2`. -/
theorem handleConn_written_body (std : Stdlib) (s : HTTPServer) (conn : Bytes)
    (request : Request) (rest : Bytes) (route : Route) (b : Bytes)
    (hperm : ∀ h, (std.rangeHeaders h).Perm h)
    (hreq : readRequest std conn = .ok (request, rest))
    (hroute : mapGet s.paths request.URL.Path = some route)
    (hmethod : request.Method ∈ route.methods)
    (hhandler : route.handler NewResponse request = handlerOf [.Write b] NewResponse request) :
    ((handleConn std s conn).written =
        bytes "HTTP/1.1 200 OK\r\nContent-Length: " ++ formatNat b.length ++ bytes "\r\n\r\n" ++
          b ∧
      decimalValue (formatNat b.length) = b.length) ∧
    (handleConn plainStdlib serverRoot (bytes "GET / HTTP/1.1\r\n\r\n")).written =
      bytes "HTTP/1.1 200 OK\r\nContent-Length: 12\r\n\r\nhello world\n" ∧
    (handleConn plainStdlib serverOk (bytes "GET /x HTTP/1.1\r\n\r\n")).written =
      bytes "HTTP/1.1 200 OK\r\nContent-Length: 2\r\n\r\nok" := by
  refine ⟨⟨?_, (formatNat_spec _).2.2⟩, by decide, by decide⟩
  have hh : route.handler NewResponse request =
      .ok { Status := 200, Body := some b, Headers := some [] } := hhandler.trans rfl
  rw [handleConn_written_ok std s conn request rest route _ b [] hreq hroute hmethod hh rfl rfl,
    Header_Add_nil, List.perm_singleton.1 (hperm _)]
  have e1 : statusLine 200 = bytes "HTTP/1.1 200 OK\r\n" := by decide
  have e2 : bytes "HTTP/1.1 200 OK\r\nContent-Length: " =
      bytes "HTTP/1.1 200 OK\r\n" ++ (bytes "Content-Length" ++ bytes ": ") := by decide
  have e3 : bytes "\r\n\r\n" = bytes "\r\n" ++ bytes "\r\n" := by decide
  rw [e1, e2, e3]
  simp [headerPairs, headerLine, List.append_assoc]

theorem handleConn_written_body_witness :
    (∀ h, (plainStdlib.rangeHeaders h).Perm h) ∧
    readRequest plainStdlib (bytes "GET / HTTP/1.1\r\n\r\n") =
      .ok ({ Method := GET, Header := [], URL := { Path := bytes "/", RawQuery := [] },
             Body := .empty }, []) ∧
    (handleConn plainStdlib serverRoot (bytes "GET / HTTP/1.1\r\n\r\n")).written =
      bytes "HTTP/1.1 200 OK\r\nContent-Length: " ++
        formatNat (bytes "hello world\n").length ++ bytes "\r\n\r\n" ++
        bytes "hello world\n" :=
  ⟨fun h => List.Perm.refl h, by decide,
    (handleConn_written_body plainStdlib serverRoot (bytes "GET / HTTP/1.1\r\n\r\n")
      { Method := GET, Header := [], URL := { Path := bytes "/", RawQuery := [] },
        Body := .empty } []
      { handler := helloWorld, methods := [GET, POST, PUT, PATCH, DELETE] }
      (bytes "hello world\n") (fun h => List.Perm.refl h) (by decide) rfl (by decide) rfl).1.1⟩

/-- A sequence of calls that contains `WriteHeader(1000)` panics, whatever the other
calls are. -/
theorem runOps_WriteHeader_1000 (first later : List ResponseOp) (r : Response) :
    ∃ r' msg, runOps r (first ++ ResponseOp.WriteHeader 1000 :: later) = (r', some msg) := by
  induction first generalizing r with
  | nil => exact ⟨r, _, rfl⟩
  | cons op ops ih =>
    simp only [List.cons_append, runOps]
    rcases hop : op.apply r with ⟨r1, _ | msg⟩
    · exact ih r1
    · exact ⟨r1, msg, rfl⟩

/-- C14: when a request is routed to a handler that panics, the connection receives
the `500 Internal Server Error` status line with `Content-Length: 0` and nothing
else, after one call of the handler; a handler that calls `WriteHeader(1000)` is such
a handler, whatever it wrote to the response before. -/
theorem handleConn_handler_panic (std : Stdlib) (s : HTTPServer) (conn : Bytes)
    (request : Request) (rest : Bytes) (route : Route)
    (hreq : readRequest std conn = .ok (request, rest))
    (hroute : mapGet s.paths request.URL.Path = some route)
    (hmethod : request.Method ∈ route.methods) :
    (∀ msg, route.handler NewResponse request = .error msg →
      (handleConn std s conn).written =
        bytes "HTTP/1.1 500 Internal Server Error\r\nContent-Length: 0" ∧
      (handleConn std s conn).calls = [(route.handler, NewResponse, request)]) ∧
    (∀ first later : List ResponseOp,
      route.handler = handlerOf (first ++ ResponseOp.WriteHeader 1000 :: later) →
      (handleConn std s conn).written =
        bytes "HTTP/1.1 500 Internal Server Error\r\nContent-Length: 0") := by
  constructor
  · intro msg hh
    exact ⟨handleConn_written_panic std s conn request rest route msg hreq hroute hmethod hh,
      handleConn_calls std s conn request rest route hreq hroute hmethod⟩
  · intro first later hhandler
    obtain ⟨r', msg, hrun⟩ := runOps_WriteHeader_1000 first later NewResponse
    have hh : route.handler NewResponse request = .error msg := by
      rw [hhandler]
      simp only [handlerOf, hrun]
    exact handleConn_written_panic std s conn request rest route msg hreq hroute hmethod hh

theorem handleConn_handler_panic_witness :
    readRequest plainStdlib (bytes "GET /x HTTP/1.1\r\n\r\n") =
      .ok ({ Method := GET, Header := [], URL := { Path := bytes "/x", RawQuery := [] },
             Body := .empty }, []) ∧
    (handleConn plainStdlib serverPanics (bytes "GET /x HTTP/1.1\r\n\r\n")).written =
      bytes "HTTP/1.1 500 Internal Server Error\r\nContent-Length: 0" :=
  ⟨by decide,
    (handleConn_handler_panic plainStdlib serverPanics (bytes "GET /x HTTP/1.1\r\n\r\n")
      { Method := GET, Header := [], URL := { Path := bytes "/x", RawQuery := [] },
        Body := .empty } []
      { handler := handlerOf [.Write (bytes "partial"), .WriteHeader 1000], methods := [GET] }
      (by decide) rfl (by decide)).2 [.Write (bytes "partial")] [] rfl⟩

/-- C15 (evaluation of the code): the responses written for a path that is not
registered, for a method that is not allowed and for a handler that panics are the
status line, `\r\n` and `Content-Length: 0`, and end there, on the byte `0`: the
header line is not ended by `\r\n` and no blank line follows. -/
theorem handleConn_error_responses_unterminated :
    (handleConn plainStdlib serverGetX (bytes "GET /y HTTP/1.1\r\n\r\n")).written =
      bytes "HTTP/1.1 404 Not Found\r\nContent-Length: 0" ∧
    (handleConn plainStdlib serverGetX (bytes "PUT /x HTTP/1.1\r\n\r\n")).written =
      bytes "HTTP/1.1 405 Method Not Allowed\r\nContent-Length: 0" ∧
    (handleConn plainStdlib serverPanics (bytes "GET /x HTTP/1.1\r\n\r\n")).written =
      bytes "HTTP/1.1 500 Internal Server Error\r\nContent-Length: 0" ∧
    (handleConn plainStdlib serverGetX (bytes "GET /y HTTP/1.1\r\n\r\n")).written ≠
      bytes "HTTP/1.1 404 Not Found\r\nContent-Length: 0\r\n\r\n" ∧
    (handleConn plainStdlib serverGetX (bytes "GET /y HTTP/1.1\r\n\r\n")).written.getLast? =
      some 0x30 ∧
    (handleConn plainStdlib serverGetX (bytes "PUT /x HTTP/1.1\r\n\r\n")).written.getLast? =
      some 0x30 ∧
    (handleConn plainStdlib serverPanics (bytes "GET /x HTTP/1.1\r\n\r\n")).written.getLast? =
      some 0x30 := by
  refine ⟨by decide, by decide, by decide, by decide, by decide, by decide, by decide⟩

/-- C19: a successful registration for a path that already has a route keeps the
handler of that route, the handler passed to the call is not stored: after
`HandleFunc("GET /x", h1)` and `HandleFunc("POST /x", h2)` the registry holds `h1`
alone, for both methods, and a `POST /x` request is handled by one call of `h1`. -/
theorem registerRoute_keeps_first_handler (s s' : HTTPServer) (pattern : Pattern)
    (handler : HTTPHandler) (route : Route)
    (h : registerRoute s pattern handler = .ok s')
    (hroute : mapGet s.paths pattern.path = some route) :
    (∃ route', mapGet s'.paths pattern.path = some route' ∧ route'.handler = route.handler) ∧
    (∀ h1 h2 : HTTPHandler, ∃ s1,
      HandleFunc NewHTTPServer (bytes "GET /x") h1 = .ok s1 ∧
      HandleFunc s1 (bytes "POST /x") h2 =
        .ok { paths := [(bytes "/x", { handler := h1, methods := [GET, POST] })] } ∧
      (handleConn plainStdlib { paths := [(bytes "/x", { handler := h1, methods := [GET, POST] })] }
          (bytes "POST /x HTTP/1.1\r\n\r\n")).calls =
        [(h1, NewResponse,
          { Method := POST, Header := [], URL := { Path := bytes "/x", RawQuery := [] },
            Body := .empty })]) := by
  constructor
  · unfold registerRoute at h
    simp only [hroute] at h
    cases hmerge : mergeMethods pattern.methods route.methods with
    | error msg => simp [hmerge] at h
    | ok merged =>
      simp only [hmerge, Except.ok.injEq] at h
      subst h
      exact ⟨_, mapGet_mapSet_same _ _ _, rfl⟩
  · intro h1 h2
    refine ⟨_, rfl, rfl, ?_⟩
    exact handleConn_calls plainStdlib _ (bytes "POST /x HTTP/1.1\r\n\r\n")
      { Method := POST, Header := [], URL := { Path := bytes "/x", RawQuery := [] },
        Body := .empty } [] { handler := h1, methods := [GET, POST] } (by decide) rfl
      (by show POST ∈ [GET, POST]; decide)

theorem registerRoute_keeps_first_handler_witness :
    registerRoute serverGetX { path := bytes "/x", methods := [POST] } writesTwo =
      .ok serverGetPostX ∧
    mapGet serverGetX.paths (bytes "/x") = some { handler := writesOne, methods := [GET] } ∧
    ∃ route', mapGet serverGetPostX.paths (bytes "/x") = some route' ∧
      route'.handler = writesOne :=
  ⟨rfl, rfl,
    (registerRoute_keeps_first_handler serverGetX serverGetPostX
      { path := bytes "/x", methods := [POST] } writesTwo
      { handler := writesOne, methods := [GET] } rfl rfl).1⟩

/-! ## Responses built by handlers -/

theorem apply_status (r : Response) (op : ResponseOp)
    (h : 100 ≤ r.Status ∧ r.Status ≤ 999) :
    100 ≤ (op.apply r).1.Status ∧ (op.apply r).1.Status ≤ 999 := by
  cases op with
  | Write buf =>
    simp only [ResponseOp.apply, Response.Write]
    cases r.Body <;> exact h
  | HeaderAdd key value =>
    simp only [ResponseOp.apply]
    cases r.Headers <;> exact h
  | HeaderSet key value =>
    simp only [ResponseOp.apply]
    cases r.Headers <;> exact h
  | WriteHeader statusCode =>
    simp only [ResponseOp.apply, Response.WriteHeader]
    by_cases hc : statusCode < 100 ∨ statusCode > 999
    · rw [if_pos hc]
      exact h
    · rw [if_neg hc]
      simp only
      omega

theorem runOps_status (ops : List ResponseOp) (r : Response)
    (h : 100 ≤ r.Status ∧ r.Status ≤ 999) :
    100 ≤ (runOps r ops).1.Status ∧ (runOps r ops).1.Status ≤ 999 := by
  induction ops generalizing r with
  | nil => exact h
  | cons op ops ih =>
    have hop := apply_status r op h
    simp only [runOps]
    rcases hres : op.apply r with ⟨r1, _ | msg⟩
    · rw [hres] at hop
      exact ih r1 hop
    · rw [hres] at hop
      exact hop

/-- C17: `WriteHeader(c)` panics exactly when `c < 100` or `c > 999`; when it returns,
`Status` is `c` and `Body` and `Headers` are as before; when it panics the response is
as before; and after any sequence of `Write`, `Header().Add`, `Header().Set` and
`WriteHeader` calls on a new response, ended or not by a panic, `Status` lies between
100 and 999. -/
theorem WriteHeader_status_range (r : Response) (statusCode : Int) :
    ((∃ msg, r.WriteHeader statusCode = .error msg) ↔ (statusCode < 100 ∨ statusCode > 999)) ∧
    (∀ r', r.WriteHeader statusCode = .ok r' →
      r'.Status = statusCode ∧ r'.Body = r.Body ∧ r'.Headers = r.Headers) ∧
    ((statusCode < 100 ∨ statusCode > 999) →
      ∃ msg, (ResponseOp.WriteHeader statusCode).apply r = (r, some msg)) ∧
    (∀ ops : List ResponseOp,
      100 ≤ (runOps NewResponse ops).1.Status ∧ (runOps NewResponse ops).1.Status ≤ 999) := by
  refine ⟨?_, ?_, ?_, fun ops => runOps_status ops NewResponse (by decide)⟩
  · by_cases hc : statusCode < 100 ∨ statusCode > 999
    · simp only [Response.WriteHeader, if_pos hc, hc, iff_true]
      exact ⟨_, rfl⟩
    · simp only [Response.WriteHeader, if_neg hc, hc, iff_false]
      rintro ⟨msg, hmsg⟩
      simp at hmsg
  · intro r' hok
    by_cases hc : statusCode < 100 ∨ statusCode > 999
    · simp [Response.WriteHeader, if_pos hc] at hok
    · simp only [Response.WriteHeader, if_neg hc, Except.ok.injEq] at hok
      subst hok
      exact ⟨rfl, rfl, rfl⟩
  · intro hc
    simp only [ResponseOp.apply, Response.WriteHeader, if_pos hc]
    exact ⟨_, rfl⟩

theorem mapSet_keys {β : Type} (m : List (Bytes × β)) (key : Bytes) (val : β) :
    (mapSet m key val).map Prod.fst =
      if key ∈ m.map Prod.fst then m.map Prod.fst else m.map Prod.fst ++ [key] := by
  induction m with
  | nil => simp [mapSet]
  | cons kv m ih =>
    obtain ⟨k, v⟩ := kv
    by_cases hk : k = key
    · subst hk
      simp [mapSet]
    · have hk2 : ¬ key = k := fun e => hk e.symm
      simp only [mapSet, if_neg hk, List.map_cons, ih, List.mem_cons, hk2, false_or]
      split_ifs <;> simp

/-- Assigning to a key keeps the keys of a map distinct. -/
theorem mapSet_nodup {β : Type} (m : List (Bytes × β)) (key : Bytes) (val : β)
    (h : (m.map Prod.fst).Nodup) : ((mapSet m key val).map Prod.fst).Nodup := by
  rw [mapSet_keys]
  split_ifs with hmem
  · exact h
  · rw [List.nodup_append]
    refine ⟨h, by simp, ?_⟩
    intro a ha hb
    simp only [List.mem_singleton] at hb
    subst hb
    exact hmem ha

theorem mapGet_of_mem {β : Type} (m : List (Bytes × β)) (key : Bytes) (val : β)
    (hnd : (m.map Prod.fst).Nodup) (h : (key, val) ∈ m) : mapGet m key = some val := by
  induction m with
  | nil => simp at h
  | cons kv m ih =>
    obtain ⟨k, v⟩ := kv
    simp only [List.map_cons, List.nodup_cons] at hnd
    rcases List.mem_cons.1 h with h1 | h1
    · simp only [Prod.mk.injEq] at h1
      simp [mapGet, h1.1, h1.2]
    · have hk : ¬ k = key := by
        intro e
        subst e
        exact hnd.1 (List.mem_map.2 ⟨(k, val), h1, rfl⟩)
      simp only [mapGet, if_neg hk]
      exact ih hnd.2 h1

/-- Looking a key up does not depend on the order of the entries of a map. -/
theorem mapGet_perm {β : Type} (m m' : List (Bytes × β)) (key : Bytes)
    (hnd : (m.map Prod.fst).Nodup) (hp : m'.Perm m) : mapGet m' key = mapGet m key := by
  have hnd' : (m'.map Prod.fst).Nodup := (hp.map Prod.fst).nodup_iff.2 hnd
  cases hget : mapGet m key with
  | none =>
    rw [mapGet_eq_none_iff] at hget ⊢
    intro entry hentry
    exact hget entry (hp.subset hentry)
  | some val =>
    exact mapGet_of_mem m' key val hnd' (hp.symm.subset (mem_of_mapGet m key val hget))

theorem filter_headerPairs_of_not_mem (headers : Header) (key : Bytes)
    (h : key ∉ headers.map Prod.fst) :
    (headerPairs headers).filter (fun p => p.1 = key) = [] := by
  rw [List.filter_eq_nil_iff]
  intro p hp
  simp only [headerPairs, List.mem_flatMap, List.mem_map] at hp
  obtain ⟨entry, hentry, v, _, hv⟩ := hp
  subst hv
  simp only [decide_eq_true_eq]
  intro e
  exact h (List.mem_map.2 ⟨entry, hentry, e⟩)

/-- The pairs of one key, in the order of the pairs, are the values of that key in
their order. -/
theorem filter_headerPairs (headers : Header) (key : Bytes)
    (hnd : (headers.map Prod.fst).Nodup) :
    ((headerPairs headers).filter (fun p => p.1 = key)).map Prod.snd =
      (mapGet headers key).getD [] := by
  induction headers with
  | nil => rfl
  | cons kv t ih =>
    obtain ⟨k, vs⟩ := kv
    simp only [List.map_cons, List.nodup_cons] at hnd
    have hcons : headerPairs ((k, vs) :: t) = vs.map (fun v => (k, v)) ++ headerPairs t := by
      simp [headerPairs]
    rw [hcons, List.filter_append, List.map_append]
    by_cases hk : k = key
    · subst hk
      have h1 : (vs.map (fun v => (k, v))).filter (fun p => p.1 = k) =
          vs.map (fun v => (k, v)) := by
        rw [List.filter_eq_self]
        intro p hp
        obtain ⟨v, _, hv⟩ := List.mem_map.1 hp
        subst hv
        simp
      rw [h1, filter_headerPairs_of_not_mem t k hnd.1]
      simp [mapGet]
    · have h1 : (vs.map (fun v => (k, v))).filter (fun p => p.1 = key) = [] := by
        rw [List.filter_eq_nil_iff]
        intro p hp
        obtain ⟨v, _, hv⟩ := List.mem_map.1 hp
        subst hv
        simpa using hk
      rw [h1, ih hnd.2]
      simp [mapGet, hk]

/-- A sequence of calls that ends without a panic, on a response with a body buffer
and a header map: the body is extended by the buffers written and the header map is
still a map. -/
theorem runOps_shape (ops : List ResponseOp) (r r' : Response) (body : Bytes)
    (headers : Header) (hb : r.Body = some body) (hh : r.Headers = some headers)
    (hnd : (headers.map Prod.fst).Nodup) (hrun : runOps r ops = (r', none)) :
    r'.Body = some (body ++ writtenBuffers ops) ∧
      ∃ headers', r'.Headers = some headers' ∧ (headers'.map Prod.fst).Nodup := by
  induction ops generalizing r body headers with
  | nil =>
    simp only [runOps, Prod.mk.injEq, and_true] at hrun
    subst hrun
    exact ⟨by simp [writtenBuffers, hb], headers, hh, hnd⟩
  | cons op ops ih =>
    simp only [runOps] at hrun
    cases op with
    | Write buf =>
      simp only [ResponseOp.apply, Response.Write, hb] at hrun
      obtain ⟨h1, h2⟩ := ih { r with Body := some (body ++ buf) } (body ++ buf) headers rfl hh
        hnd hrun
      exact ⟨by rw [h1]; simp [writtenBuffers], h2⟩
    | HeaderAdd key value =>
      simp only [ResponseOp.apply, hh] at hrun
      obtain ⟨h1, h2⟩ := ih { r with Headers := some (headers.Add key value) } body
        (headers.Add key value) hb rfl (mapSet_nodup _ _ _ hnd) hrun
      exact ⟨by rw [h1]; simp [writtenBuffers], h2⟩
    | HeaderSet key value =>
      simp only [ResponseOp.apply, hh] at hrun
      obtain ⟨h1, h2⟩ := ih { r with Headers := some (headers.Set key value) } body
        (headers.Set key value) hb rfl (mapSet_nodup _ _ _ hnd) hrun
      exact ⟨by rw [h1]; simp [writtenBuffers], h2⟩
    | WriteHeader statusCode =>
      simp only [ResponseOp.apply, Response.WriteHeader] at hrun
      by_cases hc : statusCode < 100 ∨ statusCode > 999
      · simp [if_pos hc] at hrun
      · simp only [if_neg hc] at hrun
        obtain ⟨h1, h2⟩ := ih { r with Status := statusCode } body headers hb hh hnd hrun
        exact ⟨by rw [h1]; simp [writtenBuffers], h2⟩

/-- C18: when a request is routed to a handler that makes calls of `Write`,
`Header().Add`, `Header().Set` and `WriteHeader` on its response and returns, the bytes
written are the status line, one line `key: value\r\n` for every pair of the header
map (the map the handler built, to which `handleConn` added the `Content-Length` of
the body), the blank line and the buffers written; the lines are a permutation of
the pairs of the map in which the values of every key keep their order, and the last
`Content-Length` line carries the decimal length of the buffers written, whatever
the handler stored under that key. -/
theorem handleConn_header_section (std : Stdlib) (s : HTTPServer) (conn : Bytes)
    (request : Request) (rest : Bytes) (route : Route) (ops : List ResponseOp)
    (response : Response)
    (hperm : ∀ h, (std.rangeHeaders h).Perm h)
    (hreq : readRequest std conn = .ok (request, rest))
    (hroute : mapGet s.paths request.URL.Path = some route)
    (hmethod : request.Method ∈ route.methods)
    (hhandler : route.handler NewResponse request = handlerOf ops NewResponse request)
    (hrun : runOps NewResponse ops = (response, none)) :
    ∃ (headers : Header) (emitted : List (Bytes × Bytes)),
      response.Headers = some headers ∧
      (handleConn std s conn).written =
        statusLine response.Status ++ emitted.flatMap headerLine ++ bytes "\r\n" ++
          writtenBuffers ops ∧
      emitted.Perm (headerPairs
        (Header.Add headers (bytes "Content-Length") (formatNat (writtenBuffers ops).length))) ∧
      (∀ key, (emitted.filter (fun p => p.1 = key)).map Prod.snd =
        (mapGet (Header.Add headers (bytes "Content-Length")
          (formatNat (writtenBuffers ops).length)) key).getD []) ∧
      ((emitted.filter (fun p => p.1 = bytes "Content-Length")).map Prod.snd).getLast? =
        some (formatNat (writtenBuffers ops).length) ∧
      decimalValue (formatNat (writtenBuffers ops).length) = (writtenBuffers ops).length := by
  obtain ⟨hbody, headers, hheaders, hnd⟩ :=
    runOps_shape ops NewResponse response [] [] rfl rfl (by simp) hrun
  rw [List.nil_append] at hbody
  have hh : route.handler NewResponse request = .ok response := by
    rw [hhandler]
    simp only [handlerOf, hrun]
  have hnd2 : ((Header.Add headers (bytes "Content-Length")
      (formatNat (writtenBuffers ops).length)).map Prod.fst).Nodup :=
    mapSet_nodup _ _ _ hnd
  have hfilter : ∀ key,
      ((headerPairs (std.rangeHeaders (Header.Add headers (bytes "Content-Length")
        (formatNat (writtenBuffers ops).length)))).filter (fun p => p.1 = key)).map Prod.snd =
      (mapGet (Header.Add headers (bytes "Content-Length")
        (formatNat (writtenBuffers ops).length)) key).getD [] := by
    intro key
    rw [filter_headerPairs _ key (((hperm _).map Prod.fst).nodup_iff.2 hnd2),
      mapGet_perm _ _ key hnd2 (hperm _)]
  refine ⟨headers, headerPairs (std.rangeHeaders (Header.Add headers (bytes "Content-Length")
    (formatNat (writtenBuffers ops).length))), hheaders, ?_, ?_, hfilter, ?_,
    (formatNat_spec _).2.2⟩
  · exact handleConn_written_ok std s conn request rest route response _ headers hreq hroute
      hmethod hh hbody hheaders
  · unfold headerPairs
    exact List.Perm.flatMap_right _ (hperm _)
  · rw [hfilter]
    have hc : CanonicalMIMEHeaderKey (bytes "Content-Length") = bytes "Content-Length" := by
      decide
    simp only [Header.Add, hc, mapGet_mapSet_same, Option.getD_some]
    simp

theorem handleConn_header_section_witness :
    (∀ h, (plainStdlib.rangeHeaders h).Perm h) ∧
    readRequest plainStdlib (bytes "GET /x HTTP/1.1\r\n\r\n") =
      .ok ({ Method := GET, Header := [], URL := { Path := bytes "/x", RawQuery := [] },
             Body := .empty }, []) ∧
    runOps NewResponse
        [.HeaderAdd (bytes "content-length") (bytes "99"), .Write (bytes "h"),
          .HeaderAdd (bytes "x-a") (bytes "1"), .Write (bytes "i"),
          .HeaderAdd (bytes "X-A") (bytes "2")] =
      ({ Status := 200, Body := some (bytes "hi"),
         Headers := some [(bytes "Content-Length", [bytes "99"]),
           (bytes "X-A", [bytes "1", bytes "2"])] }, none) ∧
    (handleConn plainStdlib serverOwnLength (bytes "GET /x HTTP/1.1\r\n\r\n")).written =
      bytes "HTTP/1.1 200 OK\r\nContent-Length: 99\r\nContent-Length: 2\r\nX-A: 1\r\nX-A: 2\r\n\r\nhi" ∧
    ∃ (headers : Header) (emitted : List (Bytes × Bytes)),
      (some [(bytes "Content-Length", [bytes "99"]), (bytes "X-A", [bytes "1", bytes "2"])] :
        Option Header) = some headers ∧
      (handleConn plainStdlib serverOwnLength (bytes "GET /x HTTP/1.1\r\n\r\n")).written =
        statusLine 200 ++ emitted.flatMap headerLine ++ bytes "\r\n" ++
          writtenBuffers [.HeaderAdd (bytes "content-length") (bytes "99"), .Write (bytes "h"),
            .HeaderAdd (bytes "x-a") (bytes "1"), .Write (bytes "i"),
            .HeaderAdd (bytes "X-A") (bytes "2")] ∧
      emitted.Perm (headerPairs
        (Header.Add headers (bytes "Content-Length")
          (formatNat (writtenBuffers [.HeaderAdd (bytes "content-length") (bytes "99"),
            .Write (bytes "h"), .HeaderAdd (bytes "x-a") (bytes "1"), .Write (bytes "i"),
            .HeaderAdd (bytes "X-A") (bytes "2")]).length))) ∧
      (∀ key, (emitted.filter (fun p => p.1 = key)).map Prod.snd =
        (mapGet (Header.Add headers (bytes "Content-Length")
          (formatNat (writtenBuffers [.HeaderAdd (bytes "content-length") (bytes "99"),
            .Write (bytes "h"), .HeaderAdd (bytes "x-a") (bytes "1"), .Write (bytes "i"),
            .HeaderAdd (bytes "X-A") (bytes "2")]).length)) key).getD []) ∧
      ((emitted.filter (fun p => p.1 = bytes "Content-Length")).map Prod.snd).getLast? =
        some (formatNat (writtenBuffers [.HeaderAdd (bytes "content-length") (bytes "99"),
          .Write (bytes "h"), .HeaderAdd (bytes "x-a") (bytes "1"), .Write (bytes "i"),
          .HeaderAdd (bytes "X-A") (bytes "2")]).length) ∧
      decimalValue (formatNat (writtenBuffers [.HeaderAdd (bytes "content-length") (bytes "99"),
          .Write (bytes "h"), .HeaderAdd (bytes "x-a") (bytes "1"), .Write (bytes "i"),
          .HeaderAdd (bytes "X-A") (bytes "2")]).length) =
        (writtenBuffers [.HeaderAdd (bytes "content-length") (bytes "99"),
          .Write (bytes "h"), .HeaderAdd (bytes "x-a") (bytes "1"), .Write (bytes "i"),
          .HeaderAdd (bytes "X-A") (bytes "2")]).length :=
  ⟨fun h => List.Perm.refl h, by decide, by decide, by decide,
    handleConn_header_section plainStdlib serverOwnLength (bytes "GET /x HTTP/1.1\r\n\r\n")
      { Method := GET, Header := [], URL := { Path := bytes "/x", RawQuery := [] },
        Body := .empty } []
      { handler := handlerOf [.HeaderAdd (bytes "content-length") (bytes "99"),
          .Write (bytes "h"), .HeaderAdd (bytes "x-a") (bytes "1"), .Write (bytes "i"),
          .HeaderAdd (bytes "X-A") (bytes "2")], methods := [GET] }
      [.HeaderAdd (bytes "content-length") (bytes "99"), .Write (bytes "h"),
        .HeaderAdd (bytes "x-a") (bytes "1"), .Write (bytes "i"),
        .HeaderAdd (bytes "X-A") (bytes "2")]
      { Status := 200, Body := some (bytes "hi"),
        Headers := some [(bytes "Content-Length", [bytes "99"]),
          (bytes "X-A", [bytes "1", bytes "2"])] }
      (fun h => List.Perm.refl h) (by decide) rfl (by decide) rfl (by decide)⟩

end TinyServer
